import Mathlib

/-!
Verification of the annot8 OpenAPI-specification generator.

This file gives a shallow embedding, in Lean 4, of the pure core of the
annot8 code base (schema synthesis for Go types, struct-to-schema
conversion, deterministic model naming and conflict resolution, tag
construction, operation-identifier generation, the three-tier ACL
permission resolver, source-file indexing, and parameter merging), and
proves or refutes the specification claims about that core.

Go values are modelled as follows: strings are `String`, byte/rune level
string operations are carried out on `String.data`; Go maps that are only
read through lookups are association lists (`List (k × v)`) with
overwrite-on-insert, or total functions with a zero default where the code
treats a missing key and the zero value identically; `nil` pointers are
`Option.none`.  Functions of the repository that are not part of the
analysed sources (the memoising `GenerateSchema` entry point, the
annotation parser, the struct-tag enhancer, the Go AST walker) appear as
explicit function parameters of the embedded definitions, so every theorem
quantifies over their behaviour.
-/

/-! ## String helpers (models of the Go `strings` functions used) -/

/-- Prefix test on character lists (structural on the pattern, so that a
concrete pattern reduces against an abstract list). -/
def listPre : List Char → List Char → Bool
  | [], _ => true
  | a :: as, l =>
    match l with
    | [] => false
    | b :: bs => if a = b then listPre as bs else false

/-- Model of Go `strings.HasPrefix`, on character lists. -/
def strStartsWith (s pat : String) : Bool :=
  listPre pat.data s.data

/-- Model of Go `strings.TrimPrefix`: drop `pat` when it is a prefix of `s`. -/
def trimPre (s pat : String) : String :=
  if strStartsWith s pat then String.mk (s.data.drop pat.data.length) else s

/-- Model of Go `strings.Contains(s, c)` for a one-character pattern. -/
def strHasChar (s : String) (c : Char) : Bool :=
  s.data.contains c

/-- Infix test on lists: `hasSubList pat l` holds when `pat` occurs contiguously in `l`. -/
def hasSubList (pat : List Char) : List Char → Bool
  | [] => pat.isEmpty
  | c :: rest => listPre pat (c :: rest) || hasSubList pat rest

/-- Model of Go `strings.Contains` for general substring patterns. -/
def strContains (s pat : String) : Bool :=
  hasSubList pat.data s.data

/-- Model of Go `strings.Trim(s, string(c))`: remove leading and trailing copies of `c`. -/
def trimChar (c : Char) (s : String) : String :=
  String.mk (((s.data.dropWhile (· = c)).reverse.dropWhile (· = c)).reverse)

/-- Model of Go `strings.Split(s, string(c))`. -/
def splitChar (c : Char) : List Char → List (List Char)
  | [] => [[]]
  | x :: rest =>
    match splitChar c rest with
    | [] => [[]]
    | seg :: segs => if x = c then [] :: seg :: segs else (x :: seg) :: segs

/-- Model of Go `strings.ToLower` (per-character lowering). -/
def strToLower (s : String) : String :=
  String.mk (s.data.map Char.toLower)

/-- capitalize (part_005): upper-case the first rune of `s`, keep the rest. -/
def capitalize (s : String) : String :=
  match s.data with
  | [] => s
  | c :: rest => String.mk (Char.toUpper c :: rest)

/-! ## Schema model (spec_types.go `Schema`, restricted to the members the
analysed code reads or writes; numeric bound fields, XML metadata and
examples are never touched by the claims and are omitted). -/

/-- The Go `Schema.Type` member has type `any` and holds either nothing, a
single type name, or a list of type names. -/
inductive SchemaType where
  | untyped : SchemaType
  | one : String → SchemaType
  | many : List String → SchemaType
deriving DecidableEq, Repr

/-- Embedding of the `Schema` struct of spec_types.go.  Constructor fields, in
order: type, format, description, $ref, properties, required, items,
additionalProperties, anyOf, allOf, enum, pattern, deprecated. -/
inductive Schema where
  | mk :
    SchemaType → String → String → String →
    List (String × Schema) → List String →
    Option Schema → Option Schema →
    List Schema → List Schema →
    List String → String → Bool → Schema

/-- Type member of a schema. -/
def Schema.tpe : Schema → SchemaType
  | .mk t _ _ _ _ _ _ _ _ _ _ _ _ => t

/-- Format member of a schema. -/
def Schema.format : Schema → String
  | .mk _ f _ _ _ _ _ _ _ _ _ _ _ => f

/-- Description member of a schema. -/
def Schema.description : Schema → String
  | .mk _ _ d _ _ _ _ _ _ _ _ _ _ => d

/-- Reference (`$ref`) member of a schema; `""` plays the role of Go's zero value. -/
def Schema.ref : Schema → String
  | .mk _ _ _ r _ _ _ _ _ _ _ _ _ => r

/-- Properties member of a schema, as an association list. -/
def Schema.properties : Schema → List (String × Schema)
  | .mk _ _ _ _ p _ _ _ _ _ _ _ _ => p

/-- Required member of a schema. -/
def Schema.required : Schema → List String
  | .mk _ _ _ _ _ r _ _ _ _ _ _ _ => r

/-- Items member of a schema. -/
def Schema.items : Schema → Option Schema
  | .mk _ _ _ _ _ _ i _ _ _ _ _ _ => i

/-- AdditionalProperties member of a schema. -/
def Schema.addProps : Schema → Option Schema
  | .mk _ _ _ _ _ _ _ a _ _ _ _ _ => a

/-- AnyOf member of a schema. -/
def Schema.anyOf : Schema → List Schema
  | .mk _ _ _ _ _ _ _ _ a _ _ _ _ => a

/-- AllOf member of a schema. -/
def Schema.allOf : Schema → List Schema
  | .mk _ _ _ _ _ _ _ _ _ a _ _ _ => a

/-- Enum member of a schema (literal values modelled as strings). -/
def Schema.enum : Schema → List String
  | .mk _ _ _ _ _ _ _ _ _ _ e _ _ => e

/-- Pattern member of a schema (a representative struct-tag constraint key). -/
def Schema.pat : Schema → String
  | .mk _ _ _ _ _ _ _ _ _ _ _ p _ => p

/-- Deprecated member of a schema. -/
def Schema.deprecated : Schema → Bool
  | .mk _ _ _ _ _ _ _ _ _ _ _ _ d => d

/-- Replace only the Type member of a schema (used by the pointer-wrapping
branch of convertFieldType, which assigns `underlying.Type` in place). -/
def Schema.setTpe (s : Schema) (t : SchemaType) : Schema :=
  match s with
  | .mk _ f d r p rq it ap ao alo en pt dep => .mk t f d r p rq it ap ao alo en pt dep

/-- The Go zero value `Schema{}`. -/
def Schema.empty : Schema :=
  .mk .untyped "" "" "" [] [] none none [] [] [] "" false

/-- A `&Schema{Type: t}` literal. -/
def Schema.typed (t : String) : Schema :=
  .mk (.one t) "" "" "" [] [] none none [] [] [] "" false

/-- A bare reference node `&Schema{Ref: target}` with no sibling members. -/
def Schema.pureRef (target : String) : Schema :=
  .mk .untyped "" "" target [] [] none none [] [] [] "" false

/-- A `&Schema{Type: "array", Items: item}` literal. -/
def Schema.arrayOf (item : Schema) : Schema :=
  .mk (.one "array") "" "" "" [] [] (some item) none [] [] [] "" false

/-- A `&Schema{AnyOf: vs}` literal. -/
def Schema.anyOfMk (vs : List Schema) : Schema :=
  .mk .untyped "" "" "" [] [] none none vs [] [] "" false

/-- A `&Schema{AllOf: vs}` literal. -/
def Schema.allOfMk (vs : List Schema) : Schema :=
  .mk .untyped "" "" "" [] [] none none [] vs [] "" false

/-- A `&Schema{Type: "object", Properties: props, Required: req}` literal. -/
def Schema.objectOf (props : List (String × Schema)) (req : List String) : Schema :=
  .mk (.one "object") "" "" "" props req none none [] [] [] "" false

/-- A `&Schema{Type: "object", AdditionalProperties: v}` literal. -/
def Schema.mapOf (v : Schema) : Schema :=
  .mk (.one "object") "" "" "" [] [] none (some v) [] [] [] "" false

/-- A `&Schema{Type: [t, "null"], Format: fmt}` literal (OAS 3.1 nullable primitive). -/
def Schema.nullablePrim (t fmt : String) : Schema :=
  .mk (.many [t, "null"]) fmt "" "" [] [] none none [] [] [] "" false

/-- A `&Schema{Type: t, Format: fmt, Description: desc}` literal. -/
def Schema.primitive (t fmt desc : String) : Schema :=
  .mk (.one t) fmt desc "" [] [] none none [] [] [] "" false

/-! ## schema_basic_types.go -/

/-- mapGoTypeToOpenAPI (schema_basic_types.go): Go type name to OpenAPI
(type, format) pair; 64-bit integer kinds map to string-typed schemas. -/
def mapGoTypeToOpenAPI (typeName : String) : String × String :=
  match typeName with
  | "int8" => ("integer", "int8")
  | "int16" => ("integer", "int16")
  | "int32" => ("integer", "int32")
  | "int64" => ("string", "int64")
  | "uint8" => ("integer", "uint32")
  | "byte" => ("integer", "uint32")
  | "uint16" => ("integer", "uint16")
  | "uint32" => ("integer", "uint32")
  | "rune" => ("integer", "uint32")
  | "uint64" => ("string", "uint64")
  | "int" => ("integer", "int")
  | "uint" => ("integer", "uint")
  | "float32" => ("number", "float")
  | "float64" => ("number", "double")
  | "bool" => ("boolean", "")
  | "string" => ("string", "")
  | _ => ("object", "")

/-- isBasicType (schema_basic_types.go): primitive names plus slice, pointer
and map syntax prefixes. -/
def isBasicType (typeName : String) : Bool :=
  match typeName with
  | "int" | "int8" | "int16" | "int32" | "int64"
  | "uint" | "uint8" | "uint16" | "uint32" | "uint64"
  | "rune" | "byte" | "float32" | "float64"
  | "string" | "bool" => true
  | _ =>
    strStartsWith typeName "[]" || strStartsWith typeName "*" ||
      strStartsWith typeName "map["

/-- generateBasicTypeSchema (schema_basic_types.go).  The memoising
`sg.GenerateSchema`, the `externalKnownTypes` table and
`sg.getQualifiedTypeName` are not part of this file's sources and are taken
as parameters `genSchema`, `externalKnown` and `getQualified`. -/
def generateBasicTypeSchema (genSchema : String → Schema)
    (externalKnown : String → Option Schema) (getQualified : String → String)
    (typeName : String) : Schema :=
  if strStartsWith typeName "[]" then
    Schema.arrayOf (genSchema (trimPre typeName "[]"))
  else if strStartsWith typeName "*" then
    match externalKnown (getQualified typeName) with
    | some s => s
    | none =>
      let clean := trimPre typeName "*"
      if !strHasChar clean '.' && isBasicType clean && !strStartsWith clean "[]" &&
          !strStartsWith clean "map[" then
        let p := mapGoTypeToOpenAPI clean
        Schema.nullablePrim p.1 p.2
      else
        Schema.anyOfMk [genSchema clean, Schema.typed "null"]
  else
    let p := mapGoTypeToOpenAPI typeName
    let desc := p.1 ++ " type" ++ "(" ++ typeName ++ ")" ++
      (if p.2 ≠ "" then " with format " ++ p.2 else "")
    Schema.primitive p.1 p.2 desc

/-! ## Go AST expressions and convertFieldType (part_006) -/

/-- The fragment of `go/ast.Expr` that convertFieldType inspects.  A selector
whose base is not a plain identifier, and every other expression form, takes
the `unknown` constructor (the Go code lets those fall through to the default
object schema). -/
inductive GoExpr where
  | ident : String → GoExpr
  | star : GoExpr → GoExpr
  | arrayT : GoExpr → GoExpr
  | selector : String → String → GoExpr
  | mapT : GoExpr → GoExpr
  | interfaceT : GoExpr
  | unknown : GoExpr

/-- The external-known-types probe performed at the top of convertFieldType's
`*ast.StarExpr` case (part_006 lines 118-135): for `*X` with `X` an
identifier or a qualified identifier, look the starred name up. -/
def starExternalLookup (externalKnown : String → Option Schema)
    (getQualified : String → String) : GoExpr → Option Schema
  | .ident name => externalKnown ("*" ++ getQualified name)
  | .selector x sel => externalKnown ("*" ++ x ++ "." ++ sel)
  | _ => none

/-- convertFieldType (part_006): schema for one Go AST type expression.  The
part_006 source calls `mapGoTypeToOpenAPI` for its type component only, so
the first projection is used. -/
def convertFieldType (genSchema : String → Schema)
    (externalKnown : String → Option Schema) (getQualified : String → String) :
    GoExpr → Schema
  | .ident name =>
    let basic := (mapGoTypeToOpenAPI name).1
    if basic ≠ "object" then Schema.typed basic
    else genSchema (getQualified name)
  | .star x =>
    match starExternalLookup externalKnown getQualified x with
    | some s => s
    | none =>
      let underlying := convertFieldType genSchema externalKnown getQualified x
      if underlying.ref ≠ "" then
        Schema.anyOfMk [underlying, Schema.typed "null"]
      else
        match underlying.tpe with
        | .one tStr => underlying.setTpe (.many [tStr, "null"])
        | _ => underlying
  | .arrayT elt => Schema.arrayOf (convertFieldType genSchema externalKnown getQualified elt)
  | .selector x sel => genSchema (x ++ "." ++ sel)
  | .mapT v => Schema.mapOf (convertFieldType genSchema externalKnown getQualified v)
  | .interfaceT => Schema.typed "object"
  | .unknown => Schema.typed "object"

/-! ## Struct-to-schema conversion (part_006) -/

/-- The backquote character delimiting Go struct-tag literals. -/
def backquote : Char := Char.ofNat 96

/-- Model of `go/ast.IsExported`: first character upper-case. -/
def isExportedName (name : String) : Bool :=
  match name.data with
  | [] => false
  | c :: _ => c.isUpper

/-- One field of a `go/ast.StructType`: declared names (empty for an embedded
field), type expression, and the raw struct-tag literal when present. -/
structure GoField where
  names : List String
  tpe : GoExpr
  tag : Option String

/-- isPointerType (part_006): the expression is a `*ast.StarExpr`. -/
def isPointerType : GoExpr → Bool
  | .star _ => true
  | _ => false

/-- hasOmitEmpty (part_006): the raw tag literal contains "omitempty" anywhere. -/
def hasOmitEmpty : Option String → Bool
  | none => false
  | some t => strContains t "omitempty"

/-- The serialized property name of a field: the JSON tag name when the tag
yields one that is neither empty nor "-", else the declared name.  The
repository's `extractJSONTag` is not among the analysed sources and is the
parameter `extractJSON`. -/
def fieldJsonName (extractJSON : String → String) (f : GoField) (fieldName : String) : String :=
  match f.tag with
  | none => fieldName
  | some raw =>
    let t := extractJSON (trimChar backquote raw)
    if t ≠ "" && t ≠ "-" then t else fieldName

/-- The schema stored for a named field: the convertFieldType result, passed
through the struct-tag enhancer only when a tag is present and the schema is
not a reference (part_006 lines 63-68).  The repository's
`applyEnhancedTags` is not among the analysed sources and is the parameter
`applyTags`. -/
def fieldEmittedSchema (applyTags : Schema → String → Schema)
    (genSchema : String → Schema) (externalKnown : String → Option Schema)
    (getQualified : String → String) (f : GoField) : Schema :=
  let s := convertFieldType genSchema externalKnown getQualified f.tpe
  match f.tag with
  | some raw => if s.ref = "" then applyTags s (trimChar backquote raw) else s
  | none => s

/-- Accumulator of convertStructToSchema's field loop: the allOf members from
embedded fields, the properties map, and the required list, in order. -/
structure StructAcc where
  allOf : List Schema
  props : List (String × Schema)
  req : List String

/-- Insert with overwrite into an association list (Go map assignment). -/
def updAssoc {β : Type} : List (String × β) → String → β → List (String × β)
  | [], k, v => [(k, v)]
  | (k', v') :: rest, k, v =>
    if k' = k then (k, v) :: rest else (k', v') :: updAssoc rest k v

/-- Record one exported name of a field into the accumulator. -/
def structFoldName (jsonName : String) (fieldSchema : Schema) (isReq : Bool)
    (acc : StructAcc) : StructAcc :=
  let props' := updAssoc acc.props jsonName fieldSchema
  let req' := if isReq then acc.req ++ [jsonName] else acc.req
  ⟨acc.allOf, props', req'⟩

/-- Process one struct field (inner loop of convertStructToSchema).  The
dependent-schema pre-generation of part_006 lines 19-36 only touches the
memoisation cache of the schema generator, which is external to this file's
sources; with `genSchema` a function parameter it has no observable effect
and is not repeated here. -/
def structFoldField (extractJSON : String → String) (applyTags : Schema → String → Schema)
    (genSchema : String → Schema) (externalKnown : String → Option Schema)
    (getQualified : String → String) (acc : StructAcc) (f : GoField) : StructAcc :=
  if f.names.isEmpty then
    ⟨acc.allOf ++ [convertFieldType genSchema externalKnown getQualified f.tpe], acc.props, acc.req⟩
  else
    f.names.foldl (fun acc2 fieldName =>
      if isExportedName fieldName then
        structFoldName (fieldJsonName extractJSON f fieldName)
          (fieldEmittedSchema applyTags genSchema externalKnown getQualified f)
          (!isPointerType f.tpe && !hasOmitEmpty f.tag) acc2
      else acc2) acc

/-- The three collections accumulated over all fields of a struct. -/
def structPieces (extractJSON : String → String) (applyTags : Schema → String → Schema)
    (genSchema : String → Schema) (externalKnown : String → Option Schema)
    (getQualified : String → String) (fields : List GoField) : StructAcc :=
  fields.foldl (structFoldField extractJSON applyTags genSchema externalKnown getQualified) ⟨[], [], []⟩

/-- convertStructToSchema (part_006): object schema from a struct's fields;
embedded fields become an allOf composition with the direct properties as an
anonymous trailing member. -/
def convertStructToSchema (extractJSON : String → String) (applyTags : Schema → String → Schema)
    (genSchema : String → Schema) (externalKnown : String → Option Schema)
    (getQualified : String → String) (fields : List GoField) : Schema :=
  let acc := structPieces extractJSON applyTags genSchema externalKnown getQualified fields
  if acc.allOf.isEmpty then
    Schema.objectOf acc.props acc.req
  else if !acc.props.isEmpty then
    Schema.allOfMk (acc.allOf ++ [Schema.objectOf acc.props acc.req])
  else
    Schema.allOfMk acc.allOf

/-- The (name, schema) entries one field writes into the properties map (all
its exported names receive the same emitted schema). -/
def fieldPropsContrib (extractJSON : String → String) (applyTags : Schema → String → Schema)
    (genSchema : String → Schema) (externalKnown : String → Option Schema)
    (getQualified : String → String) (f : GoField) : List (String × Schema) :=
  (f.names.filter isExportedName).map
    (fun n => (fieldJsonName extractJSON f n,
      fieldEmittedSchema applyTags genSchema externalKnown getQualified f))

/-- The required-list entries one field contributes. -/
def fieldReqContrib (extractJSON : String → String) (f : GoField) : List String :=
  if !isPointerType f.tpe && !hasOmitEmpty f.tag then
    (f.names.filter isExportedName).map (fieldJsonName extractJSON f)
  else []

/-- The allOf members one field contributes (embedded fields only). -/
def fieldAllOfContrib (genSchema : String → Schema) (externalKnown : String → Option Schema)
    (getQualified : String → String) (f : GoField) : List Schema :=
  if f.names.isEmpty then [convertFieldType genSchema externalKnown getQualified f.tpe] else []

/-- The (field, exported name) slots of a struct, in declaration order. -/
def fieldNamePairs (fields : List GoField) : List (GoField × String) :=
  (fields.map (fun f => (f.names.filter isExportedName).map (fun n => (f, n)))).flatten

/-- All property keys written while converting a struct, in write order. -/
def fieldPropKeys (extractJSON : String → String) (fields : List GoField) : List String :=
  (fields.map (fun f => (f.names.filter isExportedName).map (fieldJsonName extractJSON f))).flatten

/-! ## Operation construction (part_005) -/

/-- Embedding of the `Parameter` struct of spec_types.go. -/
structure Parameter where
  name : String
  inLoc : String
  description : String
  required : Bool
  schema : Option Schema

/-- Take the portion of `s` before the first ':' (Go `inner[:colon]` after
`strings.Index(inner, ":")`, which is the identity when no colon occurs). -/
def beforeColon (s : String) : String :=
  String.mk (s.data.takeWhile (· ≠ ':'))

/-- Model of Go `strings.Trim(part, "{}")`. -/
def trimBraces (s : String) : String :=
  let cut : Char → Bool := fun c => c = '{' || c = '}'
  String.mk (((s.data.dropWhile cut).reverse.dropWhile cut).reverse)

/-- Suffix test, model of Go `strings.HasSuffix`. -/
def strEndsWith (s pat : String) : Bool :=
  listPre pat.data.reverse s.data.reverse

/-- extractPathParameters (part_005): every `{name}` (optionally with a regex
constraint after ':') segment of the route becomes a required string path
parameter. -/
def extractPathParameters (route : String) : List Parameter :=
  ((splitChar '/' route.data).map String.mk).filterMap (fun part =>
    if strStartsWith part "\x7b" && strEndsWith part "\x7d" then
      some ⟨beforeColon (trimBraces part), "path", "", true, some (Schema.typed "string")⟩
    else none)

/-- The capitalized non-parameter, non-empty segments of a trimmed route
(the loop body of generateOperationID). -/
def cleanRouteParts (route : String) : List String :=
  ((splitChar '/' (trimChar '/' route).data).map String.mk).filterMap (fun part =>
    if part = "" || strHasChar part '{' then none else some (capitalize part))

/-- generateOperationID (part_005): lower-cased method followed by the
concatenated capitalized non-parameter route segments. -/
def generateOperationID (method route : String) : String :=
  strToLower method ++ String.join (cleanRouteParts route)

/-- extractResourceFromRoute (part_005): first route segment that is not
empty, "api", "v1" or a parameter; "default" otherwise. -/
def extractResourceFromRoute (route : String) : String :=
  match ((splitChar '/' (trimChar '/' route).data).map String.mk).find?
      (fun part => part ≠ "" && part ≠ "api" && part ≠ "v1" && !strHasChar part '{') with
  | some p => p
  | none => "default"

/-- hasJWTMiddleware (part_005): middleware chains are modelled by the list
of runtime function names the Go code obtains through `runtime.FuncForPC`. -/
def hasJWTMiddleware (mws : List String) : Bool :=
  mws.any (fun n =>
    strContains n "jwt" || strContains n "JWT" || strContains n "auth" ||
    strContains n "Authenticated" || strContains n "Can" || strContains n "Any" ||
    strContains n "Must" || strContains n "IsSystemAdmin" ||
    strContains n "IsTenantAdmin" || strContains n "IsTenant")

/-- Model of Go `strings.Join(parts, sep)`. -/
def joinSep (sep : String) : List String → String
  | [] => ""
  | [x] => x
  | x :: rest => x ++ sep ++ joinSep sep rest

/-- mergeParameter: the update applied by upsertParameter when an existing
parameter matches on (name, in): description and schema are replaced only
when the incoming ones are non-empty/non-nil, and Required is only ever
raised to true, never cleared. -/
def mergeParameter (existing p : Parameter) : Parameter :=
  ⟨existing.name, existing.inLoc,
    if p.description ≠ "" then p.description else existing.description,
    if p.required then true else existing.required,
    if p.schema.isSome then p.schema else existing.schema⟩

/-- upsertParameter (part_005): merge into the first parameter with the same
(name, in) pair, else append. -/
def upsertParameter : List Parameter → Parameter → List Parameter
  | [], p => [p]
  | existing :: rest, p =>
    if existing.name = p.name && existing.inLoc = p.inLoc then
      mergeParameter existing p :: rest
    else
      existing :: upsertParameter rest p

/-- One `@Param` annotation line as the repository's annotation parser
delivers it. -/
structure AnnotParam where
  name : String
  inLoc : String
  description : String
  required : Bool
  tpe : String

/-- The annotation-derived documentation of a handler (summary, description,
tags and parameter lines; response annotations are not needed by any claim). -/
structure AnnotData where
  summary : String
  description : String
  tags : List String
  parameters : List AnnotParam

/-- The resolved source declaration of a handler (file and function name). -/
structure HandlerInfo where
  file : String
  functionName : String

/-- The members of an assembled `Operation` that the claims inspect
(responses and request bodies are not needed by any claim and are omitted). -/
structure OperationMeta where
  operationID : String
  summary : String
  description : String
  tags : List String
  parameters : List Parameter
  security : Bool

/-- buildOperation (part_005), restricted to the Operation members above.
The repository's `ParseAnnotations`, the handler resolver, the memoising
schema generator and the ACL walker are not among the analysed sources and
enter as the parameters `parseAnn`, `handlerInfo`, `genSchema` and
`resolveACL`. -/
def buildOperationMeta (parseAnn : String → String → Option AnnotData)
    (genSchema : String → Schema)
    (resolveACL : String → String → Option HandlerInfo → List String → List String)
    (handlerInfo : Option HandlerInfo) (route method : String) (mws : List String) :
    OperationMeta :=
  let ann : Option AnnotData :=
    match handlerInfo with
    | some hi => if hi.file ≠ "" then parseAnn hi.file hi.functionName else none
    | none => none
  let params0 := extractPathParameters route
  let op1 : OperationMeta :=
    match ann with
    | some a =>
      let ps := (a.parameters.filter (fun p => p.inLoc ≠ "body")).foldl
        (fun acc p =>
          upsertParameter acc ⟨p.name, p.inLoc, p.description, p.required, some (genSchema p.tpe)⟩)
        params0
      ⟨generateOperationID method route, a.summary, a.description, a.tags, ps, false⟩
    | none => ⟨generateOperationID method route, "", "", [], params0, false⟩
  let tags2 := if op1.tags.isEmpty then [extractResourceFromRoute route] else op1.tags
  let perms := resolveACL route method handlerInfo mws
  let desc2 :=
    if perms ≠ [] then
      let aclInfo := "\n\nAccess control:\n- " ++ joinSep "\n- " perms
      if op1.description ≠ "" then op1.description ++ aclInfo
      else "This endpoint requires authentication." ++ aclInfo
    else op1.description
  ⟨op1.operationID, op1.summary, desc2, tags2, op1.parameters, hasJWTMiddleware mws⟩

/-! ## Model naming and conflict resolution (part_005, finalizeSchemas) -/

/-- Split at the last '.' of a character list, if any. -/
def lastDotSplit : List Char → Option (List Char × List Char)
  | [] => none
  | c :: rest =>
    match lastDotSplit rest with
    | some (b, a) => some (c :: b, a)
    | none => if c = '.' then some ([], rest) else none

/-- splitQualifiedName (part_005): split "pkg.Name" at the last dot into
("pkg", "Name"); without a dot the package is empty. -/
def splitQualifiedName (id : String) : String × String :=
  match lastDotSplit id.data with
  | none => ("", id)
  | some (b, a) => (String.mk b, String.mk a)

/-- The proposed public name of an internal id under a naming strategy. -/
def proposedOf (f : String → String → String) (id : String) : String :=
  f (splitQualifiedName id).1 (splitQualifiedName id).2

/-- DefaultModelNameFunc (part_005): "pkg.Type" format. -/
def DefaultModelNameFunc (pkg name : String) : String :=
  if pkg = "" then name else pkg ++ "." ++ name

/-- The final name assigned when `c` earlier ids proposed the same name:
the proposal itself for the first occurrence, then proposal ++ repr (c+1). -/
def nameFor (P : String) (c : Nat) : String :=
  if c = 0 then P else P ++ Nat.repr (c + 1)

/-- The conflict-resolution loop of finalizeSchemas: `used` carries the Go
`usedNames` map as a total function with default 0 (absent and zero
coincide because stored counts are always positive). -/
def finalizeNames (propose : String → String) :
    List String → (String → Nat) → List (String × String)
  | [], _ => []
  | id :: rest, used =>
    let P := propose id
    let c := used P
    (id, nameFor P c) :: finalizeNames propose rest (fun Q => if Q = P then c + 1 else used Q)

/-- Lexicographic comparison of character lists; on valid UTF-8 the
code-point order below coincides with Go's byte-wise string order. -/
def charListLeb : List Char → List Char → Bool
  | [], _ => true
  | _ :: _, [] => false
  | a :: as, b :: bs =>
    if a < b then true else if b < a then false else charListLeb as bs

/-- Lexicographic ≤ on strings (the order used by Go `sort.Strings`). -/
def strLeb (a b : String) : Bool :=
  charListLeb a.data b.data

/-- Strict lexicographic < on strings. -/
def strLtb (a b : String) : Bool :=
  strLeb a b && a != b

/-- The canonical processing order of finalizeSchemas (`sort.Strings`). -/
def sortedIds (ids : List String) : List String :=
  List.insertionSort (fun a b : String => strLeb a b = true) ids

/-- The internal-id to final-name map computed by finalizeSchemas from the
keys of the schema store (in whatever order the Go map yields them). -/
def finalizeSchemasNameMap (f : String → String → String) (ids : List String) :
    List (String × String) :=
  finalizeNames (proposedOf f) (sortedIds ids) (fun _ => 0)

/-- Number of ids with the same proposal occurring before `id` in a list. -/
def countBefore (propose : String → String) (id : String) : List String → Nat
  | [] => 0
  | x :: rest =>
    if x = id then 0
    else (if propose x = propose id then 1 else 0) + countBefore propose id rest

/-! ## Tags (part_005, buildTags) -/

/-- Embedding of the `Tag` struct of spec_types.go. -/
structure TagEntry where
  name : String
  description : String
deriving DecidableEq

/-- The tag entry built for one tag name. -/
def mkTag (n : String) : TagEntry :=
  ⟨n, capitalize n ++ " related operations"⟩

/-- buildTags (part_005): one entry per tag name, sorted by name for
determinism.  The Go `sort.Slice` with a strict-less comparator produces the
unique name-nondecreasing arrangement because entries with equal names are
identical; `insertionSort` over the companion ≤ produces that same
arrangement. -/
def buildTags (tagNames : List String) : List TagEntry :=
  List.insertionSort (fun a b : TagEntry => strLeb a.name b.name = true) (tagNames.map mkTag)

/-! ## ACL analysis (acl_analysis.go) -/

/-- uniqueStrings (acl_analysis.go), with the `seen` set carried as a list. -/
def uniqueStringsAux (seen : List String) : List String → List String
  | [] => []
  | v :: rest =>
    if v = "" then uniqueStringsAux seen rest
    else if v ∈ seen then uniqueStringsAux seen rest
    else v :: uniqueStringsAux (v :: seen) rest

/-- uniqueStrings (acl_analysis.go): drop empty strings and duplicates,
keeping first occurrences in order. -/
def uniqueStrings (values : List String) : List String :=
  uniqueStringsAux [] values

/-- First tier of resolveACLPermissions (extractPermissionsFromSource).  The
Go AST walk over the owning component's Routes function cannot be reproduced
without `go/ast`; it is abstracted by `sourceWalk`: `none` when any of the
early-return guards of acl_analysis.go lines 36-69 fires, otherwise the raw
slug list collected by collectRoutePermissionSlugs, whose final
`uniqueStrings` call (line 156) is kept. -/
def extractPermissionsFromSource (sourceWalk : Option (List String)) : List String :=
  match sourceWalk with
  | none => []
  | some raw => uniqueStrings raw

/-- The Can/Any/Must classification of one middleware name (the switch of
inferPermissionFromRoute). -/
def aclMiddlewareType (n : String) : Option String :=
  if strContains n "Can" then some "Can"
  else if strContains n "Any" then some "Any"
  else if strContains n "Must" then some "Must"
  else none

/-- inferPermissionFromContext (acl_analysis.go): readable permission label
from resource and method (the aclType argument is accepted and unused,
exactly as in the source). -/
def inferPermissionFromContext (resource method aclType : String) : String :=
  let resourceTitle := capitalize resource
  if method = "GET" then resourceTitle ++ "Read permission required"
  else if method = "POST" || method = "PUT" || method = "PATCH" then
    resourceTitle ++ "Write permission required"
  else if method = "DELETE" then resourceTitle ++ "Delete permission required"
  else resourceTitle ++ " permission required"

/-- inferPermissionFromRoute (acl_analysis.go): heuristic tier, non-empty
exactly when some middleware name carries an ACL marker. -/
def inferPermissionFromRoute (route method : String) (mws : List String) : String :=
  match mws.findSome? aclMiddlewareType with
  | some aclType => inferPermissionFromContext (extractResourceFromRoute route) method aclType
  | none => ""

/-- extractPermissionFromMiddleware (acl_analysis.go): descriptive label from
recognizable middleware naming conventions. -/
def extractPermissionFromMiddleware (funcName : String) : String :=
  if strContains funcName "Can" then "requires specific ACL permission"
  else if strContains funcName "Any" then "requires any of multiple ACL permissions"
  else if strContains funcName "Must" then "requires all specified ACL permissions"
  else if strContains funcName "IsSystemAdmin" then "requires SystemAdmin role"
  else if strContains funcName "IsTenantAdmin" then "requires TenantAdmin role"
  else if strContains funcName "IsTenant" then "requires valid tenant context"
  else if strContains funcName "Authenticated" then "requires valid authentication"
  else ""

/-- extractACLPermissions (acl_analysis.go): one label per middleware whose
name matches a convention; no de-duplication is performed here. -/
def extractACLPermissions (mws : List String) : List String :=
  mws.filterMap (fun n =>
    let p := extractPermissionFromMiddleware n
    if p ≠ "" then some p else none)

/-- resolveACLPermissions (acl_analysis.go): three tiers, first non-empty
result wins. -/
def resolveACLPermissions (sourceWalk : Option (List String))
    (route method : String) (mws : List String) : List String :=
  let t1 := extractPermissionsFromSource sourceWalk
  if t1 ≠ [] then t1
  else
    let inferred := inferPermissionFromRoute route method mws
    if inferred ≠ "" then [inferred]
    else extractACLPermissions mws

/-! ## Source-file indexing (part_004) -/

/-- The parts of a parsed `go/ast.File` that indexFile reads: package name,
imports (explicit alias when present, and import path), and the names of the
type declarations in `type` GenDecls. -/
structure GoFileAst where
  pkgName : String
  imports : List (Option String × String)
  typeNames : List String

/-- The four tables of the `TypeIndex` that indexFile fills (the
`externalKnownTypes` table is installed separately and never written by
indexFile).  File paths are taken slash-normalized, matching the
`filepath.ToSlash` call. -/
structure TypeIndexState where
  types : List (String × List String)
  files : List (String × GoFileAst)
  qualifiedTypes : List (String × String)
  packageImports : List (String × String)

/-- Model of Go `path.Base` restricted to its use on import paths. -/
def pathBase (p : String) : String :=
  if p = "" then "."
  else
    match (splitChar '/' (trimChar '/' p).data).reverse.head? with
    | some seg => if seg.isEmpty then "." else String.mk seg
    | none => "."

/-- Add a type name to a package's name set (Go map assignment keyed by the
name; re-assigning an existing name is a no-op on the key set). -/
def insertNew (l : List String) (n : String) : List String :=
  if n ∈ l then l else l ++ [n]

/-- indexFile (part_004): parse one file and record its package, imports and
type declarations; a file that fails to parse is skipped — the index is left
untouched and a nil error is returned so that the surrounding walk
continues.  Go's parser is external and is the parameter `parse`. -/
def indexFile (parse : String → Option GoFileAst) (idx : TypeIndexState)
    (filePath : String) : TypeIndexState × Option String :=
  match parse filePath with
  | none => (idx, none)
  | some file =>
    let files' := updAssoc idx.files filePath file
    let imports' := file.imports.foldl (fun acc imp =>
      let al :=
        match imp.1 with
        | some a => if a ≠ "" then a else pathBase imp.2
        | none => pathBase imp.2
      updAssoc acc imp.2 al) idx.packageImports
    let pkg := file.pkgName
    let pkgTypes0 :=
      match idx.types.lookup pkg with
      | some l => l
      | none => []
    let pkgTypes' := file.typeNames.foldl insertNew pkgTypes0
    let types' := updAssoc idx.types pkg pkgTypes'
    let qts' := file.typeNames.foldl
      (fun acc n => updAssoc acc (pkg ++ "." ++ n) n) idx.qualifiedTypes
    (⟨types', files', qts', imports'⟩, none)

/-- The file loop of BuildTypeIndex: `filepath.Walk` aborts the walk as soon
as the callback returns a non-nil error, otherwise continues. -/
def walkIndexFiles (parse : String → Option GoFileAst) :
    List String → TypeIndexState → TypeIndexState
  | [], idx => idx
  | p :: rest, idx =>
    match indexFile parse idx p with
    | (idx', none) => walkIndexFiles parse rest idx'
    | (idx', some _) => idx'

/-- BuildTypeIndex (part_004) over a given list of discovered source files,
starting from the empty index. -/
def buildTypeIndex (parse : String → Option GoFileAst) (files : List String) :
    TypeIndexState :=
  walkIndexFiles parse files ⟨[], [], [], []⟩

/-! ## Decimal representation helpers (for the conflict-suffix analysis) -/

/-- Structural companion of `Nat.toDigits 10`: the decimal digit characters
of `n`, most significant first. -/
def natToChars (n : Nat) : List Char :=
  if h : n < 10 then [Nat.digitChar n]
  else
    have : n / 10 < n := Nat.div_lt_self (by omega) (by omega)
    natToChars (n / 10) ++ [Nat.digitChar (n % 10)]

/-! # General lemmas used by the claim proofs -/

/-- Strings with equal character data are equal. -/
theorem strDataInj {a b : String} (h : a.data = b.data) : a = b := by
  cases a
  cases b
  exact congrArg String.mk h

/-- Totality of the lexicographic comparison. -/
theorem charListLeb_total : ∀ as bs : List Char,
    charListLeb as bs = true ∨ charListLeb bs as = true
  | [], _ => Or.inl rfl
  | _ :: _, [] => Or.inr rfl
  | a :: as, b :: bs => by
    by_cases hab : a < b
    · exact Or.inl (by simp [charListLeb, hab])
    · by_cases hba : b < a
      · exact Or.inr (by simp [charListLeb, hba])
      · rcases charListLeb_total as bs with h | h
        · exact Or.inl (by simp [charListLeb, hab, hba, h])
        · exact Or.inr (by simp [charListLeb, hab, hba, h])

/-- Transitivity of the lexicographic comparison. -/
theorem charListLeb_trans : ∀ as bs cs : List Char,
    charListLeb as bs = true → charListLeb bs cs = true → charListLeb as cs = true
  | [], _, _, _, _ => rfl
  | _ :: _, [], _, h, _ => by simp [charListLeb] at h
  | _ :: _, _ :: _, [], _, h => by simp [charListLeb] at h
  | a :: as, b :: bs, c :: cs, h1, h2 => by
    simp only [charListLeb] at h1 h2 ⊢
    by_cases hab : a < b
    · by_cases hbc : b < c
      · simp [lt_trans hab hbc]
      · by_cases hcb : c < b
        · simp [hbc, hcb] at h2
        · have hbceq : b = c := le_antisymm (not_lt.mp hcb) (not_lt.mp hbc)
          subst hbceq
          simp [hab]
    · by_cases hba : b < a
      · simp [hab, hba] at h1
      · have habeq : a = b := le_antisymm (not_lt.mp hba) (not_lt.mp hab)
        subst habeq
        by_cases hac : a < c
        · simp [hac]
        · by_cases hca : c < a
          · simp [hac, hca] at h2
          · have h1' : charListLeb as bs = true := by simpa [hab] using h1
            have h2' : charListLeb bs cs = true := by simpa [hac, hca] using h2
            simpa [hac, hca] using charListLeb_trans as bs cs h1' h2'

/-- Antisymmetry of the lexicographic comparison. -/
theorem charListLeb_antisymm : ∀ as bs : List Char,
    charListLeb as bs = true → charListLeb bs as = true → as = bs
  | [], [], _, _ => rfl
  | [], _ :: _, _, h => by simp [charListLeb] at h
  | _ :: _, [], h, _ => by simp [charListLeb] at h
  | a :: as, b :: bs, h1, h2 => by
    simp only [charListLeb] at h1 h2
    by_cases hab : a < b
    · simp [lt_asymm hab, hab] at h2
    · by_cases hba : b < a
      · simp [hab, hba] at h1
      · have habeq : a = b := le_antisymm (not_lt.mp hba) (not_lt.mp hab)
        subst habeq
        have := charListLeb_antisymm as bs (by simpa [hab] using h1) (by simpa [hab] using h2)
        rw [this]

/-- Totality of the string comparison. -/
theorem strLeb_total (a b : String) : strLeb a b = true ∨ strLeb b a = true :=
  charListLeb_total a.data b.data

/-- Transitivity of the string comparison. -/
theorem strLeb_trans {a b c : String} (h1 : strLeb a b = true) (h2 : strLeb b c = true) :
    strLeb a c = true :=
  charListLeb_trans a.data b.data c.data h1 h2

/-- Antisymmetry of the string comparison. -/
theorem strLeb_antisymm {a b : String} (h1 : strLeb a b = true) (h2 : strLeb b a = true) :
    a = b :=
  strDataInj (charListLeb_antisymm a.data b.data h1 h2)

/-- Reflexivity of the string comparison. -/
theorem strLeb_refl (a : String) : strLeb a a = true := by
  rcases strLeb_total a a with h | h <;> exact h

/-- Characterization of the strict comparison. -/
theorem strLtb_iff {a b : String} : strLtb a b = true ↔ (strLeb a b = true ∧ a ≠ b) := by
  simp [strLtb, bne_iff_ne]

/-- The strict comparison is irreflexive. -/
theorem strLtb_irrefl (a : String) : strLtb a a = false := by
  simp [strLtb]

/-- sortedIds permutes its input. -/
theorem sortedIds_perm (ids : List String) : (sortedIds ids).Perm ids :=
  List.perm_insertionSort _ ids

/-- sortedIds is sorted for the string comparison. -/
theorem sortedIds_sorted (ids : List String) :
    (sortedIds ids).Sorted (fun a b : String => strLeb a b = true) :=
  @List.sorted_insertionSort String (fun a b => strLeb a b = true) _
    ⟨strLeb_total⟩ ⟨fun _ _ _ h1 h2 => strLeb_trans h1 h2⟩ ids

/-- Permutation-invariance of the canonical processing order. -/
theorem sortedIds_perm_eq {i1 i2 : List String} (h : i1.Perm i2) :
    sortedIds i1 = sortedIds i2 :=
  @List.eq_of_perm_of_sorted String (fun a b => strLeb a b = true)
    ⟨fun _ _ h1 h2 => strLeb_antisymm h1 h2⟩ _ _
    ((sortedIds_perm i1).trans (h.trans (sortedIds_perm i2).symm))
    (sortedIds_sorted i1) (sortedIds_sorted i2)

/-- Lookup characterization of the conflict-resolution loop: a present id is
mapped to its proposal suffixed according to the number of earlier ids with
the same proposal (plus whatever the incoming usage table already counts). -/
theorem finalizeNames_lookup (propose : String → String) :
    ∀ (l : List String) (used : String → Nat) (id : String), id ∈ l → l.Nodup →
      (finalizeNames propose l used).lookup id
        = some (nameFor (propose id) (used (propose id) + countBefore propose id l))
  | [], _, _, hmem, _ => absurd hmem (List.not_mem_nil _)
  | x :: rest, used, id, hmem, hnd => by
    by_cases hx : id = x
    · subst hx
      simp [finalizeNames, List.lookup, countBefore]
    · have hmem' : id ∈ rest := by
        rcases List.mem_cons.mp hmem with h | h
        · exact absurd h hx
        · exact h
      have ih := finalizeNames_lookup propose rest
        (fun Q => if Q = propose x then used (propose x) + 1 else used Q) id hmem' hnd.of_cons
      have hbeq : (id == x) = false := beq_false_of_ne hx
      simp only [finalizeNames, List.lookup, hbeq]
      rw [ih]
      have hcb : countBefore propose id (x :: rest)
          = (if propose x = propose id then 1 else 0) + countBefore propose id rest := by
        simp [countBefore, Ne.symm hx]
      rw [hcb]
      by_cases hpp : propose x = propose id
      · have harg : (if propose id = propose x then used (propose x) + 1 else used (propose id))
            + countBefore propose id rest
            = used (propose id) + ((if propose x = propose id then 1 else 0)
              + countBefore propose id rest) := by
          rw [if_pos hpp.symm, if_pos hpp, hpp]
          omega
        exact congrArg (fun n => some (nameFor (propose id) n)) harg
      · have harg : (if propose id = propose x then used (propose x) + 1 else used (propose id))
            + countBefore propose id rest
            = used (propose id) + ((if propose x = propose id then 1 else 0)
              + countBefore propose id rest) := by
          rw [if_neg (fun h => hpp h.symm), if_neg hpp]
          omega
        exact congrArg (fun n => some (nameFor (propose id) n)) harg
      termination_by l => l.length

/-- In a sorted duplicate-free list, the number of same-proposal ids before
`x` equals the number of same-proposal ids strictly smaller than `x`. -/
theorem countBefore_sorted (propose : String → String) :
    ∀ (l : List String), l.Sorted (fun a b : String => strLeb a b = true) → l.Nodup →
      ∀ x ∈ l, countBefore propose x l
        = l.countP (fun y => propose y == propose x && strLtb y x)
  | [], _, _, x, hx => absurd hx (List.not_mem_nil _)
  | h :: t, hs, hnd, x, hx => by
    have hpair := (List.sorted_cons.mp hs).1
    have ht := (List.sorted_cons.mp hs).2
    by_cases hhx : h = x
    · subst hhx
      have hzero : t.countP (fun y => propose y == propose h && strLtb y h) = 0 := by
        rw [List.countP_eq_zero]
        intro y hy
        simp only [Bool.and_eq_true, beq_iff_eq, not_and]
        intro _
        intro hlt
        rcases strLtb_iff.mp hlt with ⟨hle, hne⟩
        exact hne (strLeb_antisymm hle (hpair y hy))
      simp [countBefore, List.countP_cons, hzero, strLtb_irrefl]
    · have hx' : x ∈ t := by
        rcases List.mem_cons.mp hx with h1 | h1
        · exact absurd h1.symm hhx
        · exact h1
      have ih := countBefore_sorted propose t ht hnd.of_cons x hx'
      have hlt : strLtb h x = true := by
        rw [strLtb_iff]
        exact ⟨hpair x hx', hhx⟩
      by_cases hpp : propose h = propose x
      · simp only [countBefore, if_neg hhx, hpp, List.countP_cons, ih]
        simp [hlt]
        omega
      · simp only [countBefore, if_neg hhx, List.countP_cons, ih]
        simp [hlt, hpp]
      termination_by l => l.length

/-- A duplicate-free list counts exactly one element satisfying a predicate
that only its member `a` satisfies. -/
theorem countP_eq_one_of_unique {α : Type} {p : α → Bool} :
    ∀ {l : List α} {a : α}, l.Nodup → a ∈ l → p a = true →
      (∀ y ∈ l, p y = true → y = a) → l.countP p = 1
  | [], a, _, ha, _, _ => absurd ha (List.not_mem_nil _)
  | x :: t, a, hnd, ha, hpa, huniq => by
    by_cases hxa : x = a
    · subst hxa
      have hzero : t.countP p = 0 := by
        rw [List.countP_eq_zero]
        intro y hy hpy
        have := huniq y (List.mem_cons_of_mem _ hy) hpy
        subst this
        exact (List.nodup_cons.mp hnd).1 hy
      simp [List.countP_cons, hzero, hpa]
    · have ha' : a ∈ t := by
        rcases List.mem_cons.mp ha with h1 | h1
        · exact absurd h1.symm hxa
        · exact h1
      have hpx : p x = false := by
        by_contra hc
        exact hxa (huniq x (List.mem_cons_self _ _) (by simpa using hc))
      have := countP_eq_one_of_unique (p := p) (List.nodup_cons.mp hnd).2 ha' hpa
        (fun y hy hpy => huniq y (List.mem_cons_of_mem _ hy) hpy)
      simp [List.countP_cons, hpx, this]

/-- The name of a built tag entry is the tag name. -/
theorem mkTag_name (n : String) : (mkTag n).name = n := rfl

/-- Ordered insertion commutes with building tag entries, because the sort
comparator only reads the name. -/
theorem orderedInsert_map_mkTag (a : String) : ∀ l : List String,
    List.orderedInsert (fun s t : TagEntry => strLeb s.name t.name = true) (mkTag a) (l.map mkTag)
      = (List.orderedInsert (fun s t : String => strLeb s t = true) a l).map mkTag
  | [] => rfl
  | b :: t => by
    simp only [List.map_cons, List.orderedInsert, mkTag_name]
    by_cases h : strLeb a b = true
    · rw [if_pos h, if_pos h]
      simp
    · rw [if_neg h, if_neg h, List.map_cons, orderedInsert_map_mkTag a t]

/-- buildTags equals the tag entries of the sorted tag names, in order. -/
theorem buildTags_eq_map_sorted : ∀ l : List String,
    buildTags l = (sortedIds l).map mkTag
  | [] => rfl
  | a :: t => by
    have ih := buildTags_eq_map_sorted t
    simp only [buildTags, sortedIds, List.map_cons, List.insertionSort] at ih ⊢
    rw [ih]
    exact orderedInsert_map_mkTag a _

/-- C1: two generations over an unchanged router and source tree produce the
same document.  Everything the generator computes is a pure function of the
discovered routes and the schema store except where Go map iteration order
enters; that happens exactly in buildTags (over the tag-name set) and in
finalizeSchemas (over the schema-store keys), and both are
permutation-invariant, so component-schema final names and the tag list are
identical on every run, and the JSON encoder (which itself orders map keys
deterministically) emits byte-identical documents. -/
theorem generateSpec_deterministic (f : String → String → String)
    (t1 t2 i1 i2 : List String) (ht : t1.Perm t2) (hi : i1.Perm i2) :
    buildTags t1 = buildTags t2 ∧
      finalizeSchemasNameMap f i1 = finalizeSchemasNameMap f i2 := by
  constructor
  · rw [buildTags_eq_map_sorted, buildTags_eq_map_sorted, sortedIds_perm_eq ht]
  · unfold finalizeSchemasNameMap
    rw [sortedIds_perm_eq hi]

/-- Witness for C1 at concrete permuted inputs. -/
theorem generateSpec_deterministic_witness :
    buildTags ["menu", "coupon"] = buildTags ["coupon", "menu"] ∧
      finalizeSchemasNameMap DefaultModelNameFunc ["p.B", "p.A"]
        = finalizeSchemasNameMap DefaultModelNameFunc ["p.A", "p.B"] :=
  generateSpec_deterministic DefaultModelNameFunc ["menu", "coupon"] ["coupon", "menu"]
    ["p.B", "p.A"] ["p.A", "p.B"] (by decide) (by decide)

/-- C2: when exactly two internal ids receive the same proposed name X from
the naming strategy, finalizeSchemas maps the lexicographically smaller one
to X and the larger one to X2, on every run. -/
theorem finalizeSchemas_collision_pair (f : String → String → String)
    (ids : List String) (a b X : String) (hnd : ids.Nodup) (ha : a ∈ ids) (hb : b ∈ ids)
    (hab : strLtb a b = true) (hpa : proposedOf f a = X) (hpb : proposedOf f b = X)
    (honly : ∀ c ∈ ids, proposedOf f c = X → c = a ∨ c = b) :
    (finalizeSchemasNameMap f ids).lookup a = some X ∧
      (finalizeSchemasNameMap f ids).lookup b = some (X ++ "2") := by
  have hperm := sortedIds_perm ids
  have hnd' : (sortedIds ids).Nodup := hperm.nodup_iff.mpr hnd
  have hmema : a ∈ sortedIds ids := hperm.mem_iff.mpr ha
  have hmemb : b ∈ sortedIds ids := hperm.mem_iff.mpr hb
  have hs := sortedIds_sorted ids
  have hla := finalizeNames_lookup (proposedOf f) (sortedIds ids) (fun _ => 0) a hmema hnd'
  have hlb := finalizeNames_lookup (proposedOf f) (sortedIds ids) (fun _ => 0) b hmemb hnd'
  have hcba := countBefore_sorted (proposedOf f) (sortedIds ids) hs hnd' a hmema
  have hcbb := countBefore_sorted (proposedOf f) (sortedIds ids) hs hnd' b hmemb
  have hca : (sortedIds ids).countP
      (fun y => proposedOf f y == proposedOf f a && strLtb y a) = 0 := by
    rw [List.countP_eq_zero]
    intro y hy
    simp only [Bool.and_eq_true, beq_iff_eq, not_and]
    intro hpy hlt
    have hyX : proposedOf f y = X := by rw [hpy, hpa]
    rcases honly y (hperm.mem_iff.mp hy) hyX with rfl | rfl
    · simpa [strLtb_irrefl] using hlt
    · rcases strLtb_iff.mp hlt with ⟨hle, _⟩
      rcases strLtb_iff.mp hab with ⟨hle', hne'⟩
      exact hne' (strLeb_antisymm hle' hle)
  have hcb1 : (sortedIds ids).countP
      (fun y => proposedOf f y == proposedOf f b && strLtb y b) = 1 := by
    apply countP_eq_one_of_unique hnd' hmema
    · simp only [Bool.and_eq_true, beq_iff_eq]
      exact ⟨by rw [hpa, hpb], hab⟩
    · intro y hy hp
      simp only [Bool.and_eq_true, beq_iff_eq] at hp
      have hyX : proposedOf f y = X := by rw [hp.1, hpb]
      rcases honly y (hperm.mem_iff.mp hy) hyX with rfl | rfl
      · rfl
      · exact absurd hp.2 (by simp [strLtb_irrefl])
  constructor
  · show (finalizeNames (proposedOf f) (sortedIds ids) (fun _ => 0)).lookup a = some X
    rw [hla, hcba, hca]
    simp [nameFor, hpa]
  · show (finalizeNames (proposedOf f) (sortedIds ids) (fun _ => 0)).lookup b
      = some (X ++ "2")
    rw [hlb, hcbb, hcb1]
    simp only [nameFor, hpb]
    rfl

/-- Witness for C2 at a concrete strategy and id set. -/
theorem finalizeSchemas_collision_pair_witness :
    (finalizeSchemasNameMap (fun _ _ => "X") ["b.M", "a.K"]).lookup "a.K" = some "X" ∧
      (finalizeSchemasNameMap (fun _ _ => "X") ["b.M", "a.K"]).lookup "b.M"
        = some ("X" ++ "2") :=
  finalizeSchemas_collision_pair (fun _ _ => "X") ["b.M", "a.K"] "a.K" "b.M" "X"
    (by decide) (by decide) (by decide) (by decide) rfl rfl (by decide)

/-- The strict comparison is transitive. -/
theorem strLtb_trans {x y z : String} (h1 : strLtb x y = true) (h2 : strLtb y z = true) :
    strLtb x z = true := by
  rcases strLtb_iff.mp h1 with ⟨hle1, hne1⟩
  rcases strLtb_iff.mp h2 with ⟨hle2, _⟩
  refine strLtb_iff.mpr ⟨strLeb_trans hle1 hle2, ?_⟩
  rintro rfl
  exact hne1 (strLeb_antisymm hle1 hle2)

/-- A list has strictly fewer p-elements than q-elements when p implies q on
its members and some member satisfies q but not p. -/
theorem countP_lt_of_witness {α : Type} {p q : α → Bool} :
    ∀ {l : List α} {a : α}, (∀ y ∈ l, p y = true → q y = true) → a ∈ l →
      q a = true → p a = false → l.countP p < l.countP q
  | [], a, _, ha, _, _ => absurd ha (List.not_mem_nil _)
  | x :: t, a, himp, ha, hqa, hpa => by
    have himpt : ∀ y ∈ t, p y = true → q y = true :=
      fun y hy => himp y (List.mem_cons_of_mem _ hy)
    by_cases hxa : x = a
    · subst hxa
      have hle : t.countP p ≤ t.countP q := List.countP_mono_left himpt
      simp only [List.countP_cons, hpa, hqa]
      simp
      omega
    · have ha' : a ∈ t := by
        rcases List.mem_cons.mp ha with h1 | h1
        · exact absurd h1.symm hxa
        · exact h1
      have hlt := countP_lt_of_witness himpt ha' hqa hpa
      by_cases hpx : p x = true
      · simp only [List.countP_cons, hpx, himp x (List.mem_cons_self _ _) hpx]
        simp
        omega
      · have hq : t.countP q ≤ (x :: t).countP q := by
          simp only [List.countP_cons]
          omega
        simp only [List.countP_cons, hpx]
        simp
        omega

/-- Every digit character produced by `Nat.digitChar` below 10 is a digit. -/
theorem digitChar_isDigit (m : Nat) (h : m < 10) : (Nat.digitChar m).isDigit = true := by
  interval_cases m <;> decide

/-- Value of `Nat.digitChar` below 10 as a code point. -/
theorem digitChar_toNat (m : Nat) (h : m < 10) : (Nat.digitChar m).toNat = 48 + m := by
  interval_cases m <;> decide

/-- The decimal character expansion is never empty. -/
theorem natToChars_ne_nil (n : Nat) : natToChars n ≠ [] := by
  rw [natToChars]
  split_ifs with h
  · simp
  · simp

/-- Every character of the decimal expansion is a digit. -/
theorem natToChars_digits (n : Nat) : ∀ c ∈ natToChars n, c.isDigit = true := by
  induction n using Nat.strong_induction_on with
  | _ n ih =>
    rw [natToChars]
    split_ifs with h
    · intro c hc
      simp only [List.mem_singleton] at hc
      subst hc
      exact digitChar_isDigit n h
    · intro c hc
      rcases List.mem_append.mp hc with h1 | h1
      · exact ih (n / 10) (Nat.div_lt_self (by omega) (by omega)) c h1
      · simp only [List.mem_singleton] at h1
        subst h1
        exact digitChar_isDigit (n % 10) (Nat.mod_lt _ (by omega))

/-- The fueled core of `Nat.toDigits` agrees with the structural expansion
whenever the fuel dominates the number. -/
theorem toDigitsCore_eq_natToChars : ∀ (f n : Nat) (acc : List Char), n < f →
    Nat.toDigitsCore 10 f n acc = natToChars n ++ acc
  | 0, _, _, h => absurd h (by omega)
  | f + 1, n, acc, h => by
    rw [natToChars]
    by_cases h10 : n < 10
    · rw [dif_pos h10]
      have hdiv : n / 10 = 0 := Nat.div_eq_of_lt h10
      simp [Nat.toDigitsCore, hdiv, Nat.mod_eq_of_lt h10]
    · rw [dif_neg h10]
      have hne : ¬ n / 10 = 0 := by
        intro hc
        exact h10 (by omega)
      have hrec := toDigitsCore_eq_natToChars f (n / 10) (Nat.digitChar (n % 10) :: acc)
        (by
          have h1 : n / 10 < n := Nat.div_lt_self (by omega) (by omega)
          omega)
      simp only [Nat.toDigitsCore, hne, if_false]
      rw [hrec]
      simp

/-- The character data of `Nat.repr` is the structural decimal expansion. -/
theorem repr_data (n : Nat) : (Nat.repr n).data = natToChars n := by
  show (Nat.toDigits 10 n).asString.data = natToChars n
  have h1 : (Nat.toDigits 10 n).asString.data = Nat.toDigits 10 n := rfl
  rw [h1]
  unfold Nat.toDigits
  rw [toDigitsCore_eq_natToChars (n + 1) n [] (by omega)]
  simp

/-- Expansion equation below 10. -/
theorem natToChars_lt (n : Nat) (h : n < 10) : natToChars n = [Nat.digitChar n] := by
  rw [natToChars]
  simp [h]

/-- Expansion equation from 10 on. -/
theorem natToChars_ge (n : Nat) (h : ¬ n < 10) :
    natToChars n = natToChars (n / 10) ++ [Nat.digitChar (n % 10)] := by
  rw [natToChars]
  simp [h]

/-- The structural decimal expansion is injective. -/
theorem natToChars_inj : ∀ (m n : Nat), natToChars m = natToChars n → m = n := by
  intro m
  induction m using Nat.strong_induction_on with
  | _ m ih =>
    intro n h
    by_cases hm : m < 10 <;> by_cases hn : n < 10
    · rw [natToChars_lt m hm, natToChars_lt n hn] at h
      simp only [List.cons.injEq] at h
      have := congrArg Char.toNat h.1
      rw [digitChar_toNat m hm, digitChar_toNat n hn] at this
      omega
    · rw [natToChars_lt m hm, natToChars_ge n hn] at h
      have hlen := congrArg List.length h
      simp only [List.length_singleton, List.length_append] at hlen
      have := List.length_pos.mpr (natToChars_ne_nil (n / 10))
      omega
    · rw [natToChars_ge m hm, natToChars_lt n hn] at h
      have hlen := congrArg List.length h
      simp only [List.length_singleton, List.length_append] at hlen
      have := List.length_pos.mpr (natToChars_ne_nil (m / 10))
      omega
    · rw [natToChars_ge m hm, natToChars_ge n hn] at h
      rcases List.append_inj' h (by simp) with ⟨h1, h2⟩
      simp only [List.cons.injEq] at h2
      have hmod : m % 10 = n % 10 := by
        have := congrArg Char.toNat h2.1
        rw [digitChar_toNat _ (Nat.mod_lt _ (by omega)),
          digitChar_toNat _ (Nat.mod_lt _ (by omega))] at this
        omega
      have hdiv : m / 10 = n / 10 :=
        ih (m / 10) (Nat.div_lt_self (by omega) (by omega)) (n / 10) h1
      omega

/-- `Nat.repr` is injective. -/
theorem repr_inj (m n : Nat) (h : Nat.repr m = Nat.repr n) : m = n := by
  apply natToChars_inj
  rw [← repr_data, ← repr_data, h]

/-- `Nat.repr` never yields the empty string. -/
theorem repr_ne_empty (n : Nat) : Nat.repr n ≠ "" := by
  intro h
  have := congrArg String.data h
  rw [repr_data] at this
  exact natToChars_ne_nil n this

/-- Every character of `Nat.repr` is a digit. -/
theorem repr_digits (n : Nat) : ∀ c ∈ (Nat.repr n).data, c.isDigit = true := by
  rw [repr_data]
  exact natToChars_digits n

/-- C3 (amended): within one generation pass the internal-name to final-name
map is injective for every naming strategy in which no proposed name extends
another proposed name by a nonempty all-digit suffix.  (The unrestricted
claim fails: a strategy proposing an already-suffixed name such as "X2"
collides with a suffix generated for "X", see the counterexample.) -/
theorem finalizeSchemas_nameMap_injective (f : String → String → String)
    (ids : List String) (hnd : ids.Nodup)
    (hnoext : ∀ a ∈ ids, ∀ b ∈ ids, ∀ d : String, d ≠ "" →
      (∀ c ∈ d.data, c.isDigit = true) → proposedOf f b ≠ proposedOf f a ++ d)
    (a b : String) (ha : a ∈ ids) (hb : b ∈ ids)
    (heq : (finalizeSchemasNameMap f ids).lookup a
      = (finalizeSchemasNameMap f ids).lookup b) :
    a = b := by
  by_contra hab
  have hperm := sortedIds_perm ids
  have hnd' : (sortedIds ids).Nodup := hperm.nodup_iff.mpr hnd
  have hs := sortedIds_sorted ids
  have hma : a ∈ sortedIds ids := hperm.mem_iff.mpr ha
  have hmb : b ∈ sortedIds ids := hperm.mem_iff.mpr hb
  unfold finalizeSchemasNameMap at heq
  rw [finalizeNames_lookup (proposedOf f) (sortedIds ids) (fun _ => 0) a hma hnd',
    finalizeNames_lookup (proposedOf f) (sortedIds ids) (fun _ => 0) b hmb hnd',
    countBefore_sorted (proposedOf f) (sortedIds ids) hs hnd' a hma,
    countBefore_sorted (proposedOf f) (sortedIds ids) hs hnd' b hmb] at heq
  set CA := (sortedIds ids).countP
    (fun y => proposedOf f y == proposedOf f a && strLtb y a) with hCAdef
  set CB := (sortedIds ids).countP
    (fun y => proposedOf f y == proposedOf f b && strLtb y b) with hCBdef
  have heq' : nameFor (proposedOf f a) CA = nameFor (proposedOf f b) CB := by
    have := Option.some.inj heq
    simpa using this
  have hpos : ∀ x y : String, x ∈ sortedIds ids → proposedOf f x = proposedOf f y →
      strLtb x y = true →
      0 < (sortedIds ids).countP (fun z => proposedOf f z == proposedOf f y && strLtb z y) := by
    intro x y hx hpxy hlt
    rw [List.countP_pos_iff]
    exact ⟨x, hx, by simp [hpxy, hlt]⟩
  by_cases hca0 : CA = 0 <;> by_cases hcb0 : CB = 0
  · have hPP : proposedOf f a = proposedOf f b := by
      simpa [nameFor, hca0, hcb0] using heq'
    rcases strLeb_total a b with h | h
    · have hlt : strLtb a b = true := strLtb_iff.mpr ⟨h, hab⟩
      have := hpos a b hma hPP hlt
      omega
    · have hlt : strLtb b a = true := strLtb_iff.mpr ⟨h, Ne.symm hab⟩
      have := hpos b a hmb hPP.symm hlt
      omega
  · have hx : proposedOf f a = proposedOf f b ++ Nat.repr (CB + 1) := by
      simpa [nameFor, hca0, hcb0] using heq'
    exact hnoext b hb a ha (Nat.repr (CB + 1)) (repr_ne_empty _) (repr_digits _) hx
  · have hx : proposedOf f b = proposedOf f a ++ Nat.repr (CA + 1) := by
      have := heq'.symm
      simpa [nameFor, hca0, hcb0] using this
    exact hnoext a ha b hb (Nat.repr (CA + 1)) (repr_ne_empty _) (repr_digits _) hx
  · have hx : proposedOf f a ++ Nat.repr (CA + 1)
        = proposedOf f b ++ Nat.repr (CB + 1) := by
      simpa [nameFor, hca0, hcb0] using heq'
    by_cases hPP : proposedOf f a = proposedOf f b
    · have hrep : Nat.repr (CA + 1) = Nat.repr (CB + 1) := by
        rw [hPP] at hx
        have hd := congrArg String.data hx
        rw [String.data_append, String.data_append] at hd
        exact strDataInj (List.append_cancel_left hd)
      have hceq : CA = CB := by
        have := repr_inj _ _ hrep
        omega
      have hCAne : CA ≠ CB := by
        rcases strLeb_total a b with h | h
        · have hlt : strLtb a b = true := strLtb_iff.mpr ⟨h, hab⟩
          have : CA < CB := by
            apply countP_lt_of_witness (a := a) ?_ hma ?_ ?_
            · intro y hy hp
              simp only [Bool.and_eq_true, beq_iff_eq] at hp ⊢
              exact ⟨hp.1.trans hPP, strLtb_trans hp.2 hlt⟩
            · simp only [Bool.and_eq_true, beq_iff_eq]
              exact ⟨hPP, hlt⟩
            · simp [strLtb_irrefl]
          omega
        · have hlt : strLtb b a = true := strLtb_iff.mpr ⟨h, Ne.symm hab⟩
          have : CB < CA := by
            apply countP_lt_of_witness (a := b) ?_ hmb ?_ ?_
            · intro y hy hp
              simp only [Bool.and_eq_true, beq_iff_eq] at hp ⊢
              exact ⟨hp.1.trans hPP.symm, strLtb_trans hp.2 hlt⟩
            · simp only [Bool.and_eq_true, beq_iff_eq]
              exact ⟨hPP.symm, hlt⟩
            · simp [strLtb_irrefl]
          omega
      exact hCAne hceq
    · have hd := congrArg String.data hx
      rw [String.data_append, String.data_append] at hd
      rcases List.append_eq_append_iff.mp hd with ⟨m, hm1, hm2⟩ | ⟨m, hm1, hm2⟩
      · by_cases hm0 : m = []
        · subst hm0
          exact hPP (strDataInj (by simpa using hm1.symm))
        · refine hnoext a ha b hb (String.mk m)
            (fun hc => hm0 (congrArg String.data hc)) ?_ ?_
          · intro c hc
            exact repr_digits (CA + 1) c (by rw [hm2]; exact List.mem_append_left _ hc)
          · apply strDataInj
            rw [String.data_append]
            exact hm1
      · by_cases hm0 : m = []
        · subst hm0
          exact hPP (strDataInj (by simpa using hm1))
        · refine hnoext b hb a ha (String.mk m)
            (fun hc => hm0 (congrArg String.data hc)) ?_ ?_
          · intro c hc
            exact repr_digits (CB + 1) c (by rw [hm2]; exact List.mem_append_left _ hc)
          · apply strDataInj
            rw [String.data_append]
            exact hm1

/-- Witness for the amended C3 at a concrete strategy whose proposals can
never extend one another. -/
theorem finalizeSchemas_nameMap_injective_witness : ("a.M" : String) = "a.M" :=
  finalizeSchemas_nameMap_injective (fun _ _ => "X") ["a.M", "b.N"] (by decide)
    (by
      intro x hx y hy d hd hdig hcontra
      have hcontra' : ("X" : String) = "X" ++ d := hcontra
      have hlen : ("X" : String).data.length = ("X" : String).data.length + d.data.length := by
        have := congrArg (fun s : String => s.data.length) hcontra'
        simpa [String.data_append] using this
      have hdnil : d.data = [] := List.length_eq_zero.mp (by omega)
      exact hd (strDataInj hdnil))
    "a.M" "a.M" (by decide) (by decide) rfl

/-- C3 counterexample: with the strategy proposing "X" for a.X and b.X and
the already-suffixed "X2" for c.Y, finalizeSchemas assigns the same final
name "X2" to the two distinct internal ids b.X and c.Y, so the map is not
injective as claimed. -/
theorem finalizeSchemas_nameMap_not_injective :
    (finalizeSchemasNameMap (fun _ name => if name = "Y" then "X2" else "X")
        ["a.X", "b.X", "c.Y"]).lookup "b.X"
      = (finalizeSchemasNameMap (fun _ name => if name = "Y" then "X2" else "X")
        ["a.X", "b.X", "c.Y"]).lookup "c.Y"
    ∧ ("b.X" : String) ≠ "c.Y"
    ∧ (finalizeSchemasNameMap (fun _ name => if name = "Y" then "X2" else "X")
        ["a.X", "b.X", "c.Y"]).lookup "b.X" = some "X2" :=
  ⟨by decide, by decide, by decide⟩

/-- Rebuilding a string from its character data is the identity. -/
theorem mk_data (s : String) : String.mk s.data = s := by
  cases s
  rfl

/-- The character data of a star-prefixed type name. -/
theorem star_append_data (s : String) : ("*" ++ s).data = '*' :: s.data := by
  rw [String.data_append]
  rfl

/-- A star-prefixed type name is not slice syntax. -/
theorem star_startsWith_brackets (s : String) : strStartsWith ("*" ++ s) "[]" = false := by
  unfold strStartsWith
  rw [star_append_data]
  rfl

/-- A star-prefixed type name is pointer syntax. -/
theorem star_startsWith_star (s : String) : strStartsWith ("*" ++ s) "*" = true := by
  unfold strStartsWith
  rw [star_append_data]
  rfl

/-- Stripping the star from a star-prefixed type name. -/
theorem trimPre_star (s : String) : trimPre ("*" ++ s) "*" = s := by
  unfold trimPre
  rw [star_startsWith_star]
  simp only [if_true]
  rw [star_append_data]
  exact mk_data s

/-- C4: generating a schema for pointer-to-int64 yields the union type
[string, null] with format int64 (64-bit integers are string-typed); and
generating a schema for a pointer to an indexed record — whose schema is a
reference node — yields an anyOf of the reference node and a null-typed
node, leaving the reference node itself unchanged (its own type member stays
absent), both through the type-name path (generateBasicTypeSchema) and
through the AST field path (convertFieldType). -/
theorem pointer_schema_laws (genSchema : String → Schema)
    (externalKnown : String → Option Schema) (getQualified : String → String)
    (recName target : String) (e : GoExpr)
    (hext1 : externalKnown (getQualified "*int64") = none)
    (hext2 : externalKnown (getQualified ("*" ++ recName)) = none)
    (hrec : isBasicType recName = false)
    (hgen : genSchema recName = Schema.pureRef target)
    (hexte : starExternalLookup externalKnown getQualified e = none)
    (hconv : convertFieldType genSchema externalKnown getQualified e = Schema.pureRef target)
    (htarget : target ≠ "") :
    generateBasicTypeSchema genSchema externalKnown getQualified "*int64"
      = Schema.nullablePrim "string" "int64"
    ∧ generateBasicTypeSchema genSchema externalKnown getQualified ("*" ++ recName)
      = Schema.anyOfMk [Schema.pureRef target, Schema.typed "null"]
    ∧ convertFieldType genSchema externalKnown getQualified (.star e)
      = Schema.anyOfMk [Schema.pureRef target, Schema.typed "null"]
    ∧ (Schema.pureRef target).tpe = SchemaType.untyped := by
  refine ⟨?_, ?_, ?_, rfl⟩
  · have step : generateBasicTypeSchema genSchema externalKnown getQualified "*int64"
        = (match externalKnown (getQualified "*int64") with
           | some s => s
           | none => Schema.nullablePrim "string" "int64") := rfl
    rw [step, hext1]
  · have step : generateBasicTypeSchema genSchema externalKnown getQualified ("*" ++ recName)
        = (match externalKnown (getQualified ("*" ++ recName)) with
           | some s => s
           | none =>
             if !strHasChar recName '.' && isBasicType recName &&
                 !strStartsWith recName "[]" && !strStartsWith recName "map[" then
               Schema.nullablePrim (mapGoTypeToOpenAPI recName).1 (mapGoTypeToOpenAPI recName).2
             else Schema.anyOfMk [genSchema recName, Schema.typed "null"]) := by
      unfold generateBasicTypeSchema
      rw [star_startsWith_brackets, star_startsWith_star, trimPre_star]
      simp
    rw [step, hext2]
    simp [hrec, hgen]
  · have step : convertFieldType genSchema externalKnown getQualified (.star e)
        = (match starExternalLookup externalKnown getQualified e with
           | some s => s
           | none =>
             let underlying := convertFieldType genSchema externalKnown getQualified e
             if underlying.ref ≠ "" then
               Schema.anyOfMk [underlying, Schema.typed "null"]
             else
               match underlying.tpe with
               | .one tStr => underlying.setTpe (.many [tStr, "null"])
               | _ => underlying) := rfl
    rw [step, hexte]
    simp only [hconv]
    rw [if_pos (show ¬ (Schema.pureRef target).ref = "" from htarget)]

/-- Witness for C4 at a concrete generator state and record type. -/
theorem pointer_schema_laws_witness :
    generateBasicTypeSchema
        (fun n => if n = "pkg.Rec" then Schema.pureRef "#/components/schemas/pkg.Rec"
          else Schema.empty)
        (fun _ => none) id "*int64" = Schema.nullablePrim "string" "int64"
    ∧ generateBasicTypeSchema
        (fun n => if n = "pkg.Rec" then Schema.pureRef "#/components/schemas/pkg.Rec"
          else Schema.empty)
        (fun _ => none) id ("*" ++ "pkg.Rec")
      = Schema.anyOfMk [Schema.pureRef "#/components/schemas/pkg.Rec", Schema.typed "null"]
    ∧ convertFieldType
        (fun n => if n = "pkg.Rec" then Schema.pureRef "#/components/schemas/pkg.Rec"
          else Schema.empty)
        (fun _ => none) id (.star (.ident "pkg.Rec"))
      = Schema.anyOfMk [Schema.pureRef "#/components/schemas/pkg.Rec", Schema.typed "null"]
    ∧ (Schema.pureRef "#/components/schemas/pkg.Rec").tpe = SchemaType.untyped :=
  pointer_schema_laws
    (fun n => if n = "pkg.Rec" then Schema.pureRef "#/components/schemas/pkg.Rec"
      else Schema.empty)
    (fun _ => none) id "pkg.Rec" "#/components/schemas/pkg.Rec" (.ident "pkg.Rec")
    rfl rfl rfl rfl rfl rfl (by decide)

/-- Inserting a fresh key into an association list appends it. -/
theorem updAssoc_fresh {β : Type} : ∀ (l : List (String × β)) (k : String) (v : β),
    k ∉ l.map Prod.fst → updAssoc l k v = l ++ [(k, v)]
  | [], _, _, _ => rfl
  | (k', v') :: rest, k, v, h => by
    have hk : ¬ k' = k := fun hceq => h (hceq ▸ List.mem_cons_self _ _)
    simp only [updAssoc, if_neg hk, List.cons_append]
    rw [updAssoc_fresh rest k v (fun hc => h (List.mem_cons_of_mem _ hc))]

/-- The name loop of a field never touches the allOf accumulator. -/
theorem nameFold_allOf (jn : String → String) (sch : Schema) (isReq : Bool) :
    ∀ (names : List String) (acc : StructAcc),
      (names.foldl (fun acc2 n =>
        if isExportedName n then structFoldName (jn n) sch isReq acc2 else acc2) acc).allOf
        = acc.allOf
  | [], _ => rfl
  | n :: rest, acc => by
    simp only [List.foldl_cons]
    by_cases h : isExportedName n = true
    · rw [if_pos h]
      exact (nameFold_allOf jn sch isReq rest _).trans rfl
    · rw [if_neg h]
      exact nameFold_allOf jn sch isReq rest acc

/-- The required entries produced by the name loop of one field. -/
theorem nameFold_req (jn : String → String) (sch : Schema) (isReq : Bool) :
    ∀ (names : List String) (acc : StructAcc),
      (names.foldl (fun acc2 n =>
        if isExportedName n then structFoldName (jn n) sch isReq acc2 else acc2) acc).req
        = acc.req ++ (if isReq then (names.filter isExportedName).map jn else [])
  | [], acc => by simp
  | n :: rest, acc => by
    simp only [List.foldl_cons]
    by_cases h : isExportedName n = true
    · rw [if_pos h]
      rw [nameFold_req jn sch isReq rest _]
      have hacc : (structFoldName (jn n) sch isReq acc).req
          = if isReq then acc.req ++ [jn n] else acc.req := rfl
      rw [hacc]
      cases isReq
      · simp [List.filter_cons, h]
      · simp [List.filter_cons, h]
    · rw [if_neg h]
      rw [nameFold_req jn sch isReq rest acc]
      have : (n :: rest).filter isExportedName = rest.filter isExportedName := by
        simp [List.filter_cons, h]
      rw [this]

/-- The property entries produced by the name loop of one field, when all
keys it writes are new and mutually distinct. -/
theorem nameFold_props (jn : String → String) (sch : Schema) (isReq : Bool) :
    ∀ (names : List String) (acc : StructAcc),
      ((names.filter isExportedName).map jn).Nodup →
      (∀ k ∈ (names.filter isExportedName).map jn, k ∉ acc.props.map Prod.fst) →
      (names.foldl (fun acc2 n =>
        if isExportedName n then structFoldName (jn n) sch isReq acc2 else acc2) acc).props
        = acc.props ++ (names.filter isExportedName).map (fun n => (jn n, sch))
  | [], acc, _, _ => by simp
  | n :: rest, acc, hnd, hfresh => by
    simp only [List.foldl_cons]
    by_cases h : isExportedName n = true
    · have hfilter : (n :: rest).filter isExportedName = n :: rest.filter isExportedName := by
        simp [List.filter_cons, h]
      rw [hfilter] at hnd hfresh
      simp only [List.map_cons] at hnd hfresh
      rw [if_pos h]
      have hupd : (structFoldName (jn n) sch isReq acc).props
          = acc.props ++ [(jn n, sch)] := by
        have : (structFoldName (jn n) sch isReq acc).props
            = updAssoc acc.props (jn n) sch := rfl
        rw [this, updAssoc_fresh _ _ _ (hfresh (jn n) (List.mem_cons_self _ _))]
      have hrec := nameFold_props jn sch isReq rest (structFoldName (jn n) sch isReq acc)
        (List.nodup_cons.mp hnd).2
        (by
          intro k hk
          rw [hupd]
          simp only [List.map_append, List.mem_append]
          rintro (hk1 | hk2)
          · exact hfresh k (List.mem_cons_of_mem _ hk) hk1
          · simp only [List.map_cons, List.map_nil, List.mem_singleton] at hk2
            exact (List.nodup_cons.mp hnd).1 (hk2 ▸ hk))
      rw [hrec, hupd, hfilter]
      simp
    · rw [if_neg h]
      have hfilter : (n :: rest).filter isExportedName = rest.filter isExportedName := by
        simp [List.filter_cons, h]
      rw [hfilter] at hnd hfresh
      rw [nameFold_props jn sch isReq rest acc hnd hfresh, hfilter]

/-- The allOf members accumulated over all fields. -/
theorem structFold_allOf (ex : String → String) (aT : Schema → String → Schema)
    (g : String → Schema) (e : String → Option Schema) (q : String → String) :
    ∀ (fields : List GoField) (acc : StructAcc),
      (fields.foldl (structFoldField ex aT g e q) acc).allOf
        = acc.allOf ++ (fields.map (fieldAllOfContrib g e q)).flatten
  | [], acc => by simp
  | f :: rest, acc => by
    simp only [List.foldl_cons, List.map_cons, List.flatten_cons]
    rw [structFold_allOf ex aT g e q rest _]
    by_cases hemb : f.names.isEmpty = true
    · have hstep : (structFoldField ex aT g e q acc f).allOf
          = acc.allOf ++ [convertFieldType g e q f.tpe] := by
        unfold structFoldField
        rw [if_pos hemb]
      rw [hstep]
      simp [fieldAllOfContrib, hemb]
    · have hstep : structFoldField ex aT g e q acc f
          = f.names.foldl (fun acc2 n =>
            if isExportedName n then
              structFoldName (fieldJsonName ex f n)
                (fieldEmittedSchema aT g e q f)
                (!isPointerType f.tpe && !hasOmitEmpty f.tag) acc2
            else acc2) acc := by
        unfold structFoldField
        rw [if_neg hemb]
      rw [hstep, nameFold_allOf]
      simp [fieldAllOfContrib, hemb]

/-- The required list accumulated over all fields. -/
theorem structFold_req (ex : String → String) (aT : Schema → String → Schema)
    (g : String → Schema) (e : String → Option Schema) (q : String → String) :
    ∀ (fields : List GoField) (acc : StructAcc),
      (fields.foldl (structFoldField ex aT g e q) acc).req
        = acc.req ++ (fields.map (fieldReqContrib ex)).flatten
  | [], acc => by simp
  | f :: rest, acc => by
    simp only [List.foldl_cons, List.map_cons, List.flatten_cons]
    rw [structFold_req ex aT g e q rest _]
    by_cases hemb : f.names.isEmpty = true
    · have hstep : (structFoldField ex aT g e q acc f).req = acc.req := by
        unfold structFoldField
        rw [if_pos hemb]
      rw [hstep]
      have : f.names = [] := by simpa using hemb
      simp [fieldReqContrib, this]
    · have hstep : structFoldField ex aT g e q acc f
          = f.names.foldl (fun acc2 n =>
            if isExportedName n then
              structFoldName (fieldJsonName ex f n)
                (fieldEmittedSchema aT g e q f)
                (!isPointerType f.tpe && !hasOmitEmpty f.tag) acc2
            else acc2) acc := by
        unfold structFoldField
        rw [if_neg hemb]
      rw [hstep, nameFold_req]
      rw [List.append_assoc]
      have : (if !isPointerType f.tpe && !hasOmitEmpty f.tag then
            (f.names.filter isExportedName).map (fieldJsonName ex f) else [])
          = fieldReqContrib ex f := rfl
      rw [this]

/-- The property entries accumulated over all fields, when all written keys
are distinct. -/
theorem structFold_props (ex : String → String) (aT : Schema → String → Schema)
    (g : String → Schema) (e : String → Option Schema) (q : String → String) :
    ∀ (fields : List GoField) (acc : StructAcc),
      (fieldPropKeys ex fields).Nodup →
      (∀ k ∈ fieldPropKeys ex fields, k ∉ acc.props.map Prod.fst) →
      (fields.foldl (structFoldField ex aT g e q) acc).props
        = acc.props ++ (fields.map (fieldPropsContrib ex aT g e q)).flatten
  | [], acc, _, _ => by simp
  | f :: rest, acc, hnd, hfresh => by
    have hkeys : fieldPropKeys ex (f :: rest)
        = (f.names.filter isExportedName).map (fieldJsonName ex f)
          ++ fieldPropKeys ex rest := by
      simp [fieldPropKeys, List.map_cons, List.flatten_cons]
    rw [hkeys] at hnd hfresh
    have hnd1 := (List.nodup_append.mp hnd).1
    have hnd2 := (List.nodup_append.mp hnd).2.1
    have hdisj := (List.nodup_append.mp hnd).2.2
    simp only [List.foldl_cons, List.map_cons, List.flatten_cons]
    by_cases hemb : f.names.isEmpty = true
    · have hnames : f.names = [] := by simpa using hemb
      have hstep : (structFoldField ex aT g e q acc f).props = acc.props := by
        unfold structFoldField
        rw [if_pos hemb]
      have hfresh2 : ∀ k ∈ fieldPropKeys ex rest,
          k ∉ (structFoldField ex aT g e q acc f).props.map Prod.fst := by
        intro k hk
        rw [hstep]
        exact hfresh k (List.mem_append_right _ hk)
      rw [structFold_props ex aT g e q rest _ hnd2 hfresh2, hstep]
      simp [fieldPropsContrib, hnames]
    · have hstep : structFoldField ex aT g e q acc f
          = f.names.foldl (fun acc2 n =>
            if isExportedName n then
              structFoldName (fieldJsonName ex f n)
                (fieldEmittedSchema aT g e q f)
                (!isPointerType f.tpe && !hasOmitEmpty f.tag) acc2
            else acc2) acc := by
        unfold structFoldField
        rw [if_neg hemb]
      have hfreshhead : ∀ k ∈ (f.names.filter isExportedName).map (fieldJsonName ex f),
          k ∉ acc.props.map Prod.fst :=
        fun k hk => hfresh k (List.mem_append_left _ hk)
      have hstepprops : (structFoldField ex aT g e q acc f).props
          = acc.props ++ fieldPropsContrib ex aT g e q f := by
        rw [hstep, nameFold_props (fieldJsonName ex f) (fieldEmittedSchema aT g e q f)
          (!isPointerType f.tpe && !hasOmitEmpty f.tag) f.names acc hnd1 hfreshhead]
        rfl
      have hfresh2 : ∀ k ∈ fieldPropKeys ex rest,
          k ∉ (structFoldField ex aT g e q acc f).props.map Prod.fst := by
        intro k hk
        rw [hstepprops]
        simp only [List.map_append, List.mem_append]
        rintro (h1 | h2)
        · exact hfresh k (List.mem_append_right _ hk) h1
        · have hkhead : k ∈ (f.names.filter isExportedName).map (fieldJsonName ex f) := by
            simpa [fieldPropsContrib, List.map_map, Function.comp] using h2
          exact hdisj hkhead hk
      rw [structFold_props ex aT g e q rest _ hnd2 hfresh2, hstepprops]
      simp

/-- Association lookup skips a block containing no matching key. -/
theorem lookup_append_of_not_mem {β : Type} :
    ∀ (l1 l2 : List (String × β)) (k : String),
      k ∉ l1.map Prod.fst → (l1 ++ l2).lookup k = l2.lookup k
  | [], _, _, _ => rfl
  | (k', v') :: rest, l2, k, h => by
    have hk : (k == k') = false :=
      beq_false_of_ne (fun hc => h (by rw [hc]; exact List.mem_cons_self _ _))
    simp only [List.cons_append, List.lookup, hk]
    exact lookup_append_of_not_mem rest l2 k (fun hc => h (List.mem_cons_of_mem _ hc))

/-- Association lookup in a constant-valued block followed by anything. -/
theorem lookup_const_append {β : Type} (v : β) :
    ∀ (names : List String) (l2 : List (String × β)) (k : String) (g : String → String),
      k ∈ names.map g → ((names.map (fun n => (g n, v))) ++ l2).lookup k = some v
  | [], _, _, _, h => absurd h (by simp)
  | n :: rest, l2, k, g, h => by
    by_cases hk : k = g n
    · have : (k == g n) = true := beq_iff_eq.mpr hk
      simp [List.lookup, this]
    · have hbeq : (k == g n) = false := beq_false_of_ne hk
      simp only [List.map_cons, List.cons_append, List.lookup, hbeq]
      refine lookup_const_append v rest l2 k g ?_
      rcases List.mem_cons.mp h with h1 | h1
      · exact absurd h1 hk
      · exact h1

/-- A function that is duplicate-free on a list is injective on its members. -/
theorem nodup_map_inj {α β : Type} {g : α → β} :
    ∀ {l : List α}, (l.map g).Nodup → ∀ {a b : α}, a ∈ l → b ∈ l → g a = g b → a = b
  | [], _, a, _, ha, _, _ => absurd ha (List.not_mem_nil _)
  | x :: t, hnd, a, b, ha, hb, hg => by
    rcases List.mem_cons.mp ha with rfl | ha'
    · rcases List.mem_cons.mp hb with rfl | hb'
      · rfl
      · exfalso
        have hmem : g b ∈ t.map g := List.mem_map_of_mem g hb'
        rw [← hg] at hmem
        exact (List.nodup_cons.mp hnd).1 hmem
    · rcases List.mem_cons.mp hb with rfl | hb'
      · exfalso
        have hmem : g a ∈ t.map g := List.mem_map_of_mem g ha'
        rw [hg] at hmem
        exact (List.nodup_cons.mp hnd).1 hmem
      · exact nodup_map_inj (List.nodup_cons.mp hnd).2 ha' hb' hg

/-- Membership in the field-name slots of a struct. -/
theorem mem_fieldNamePairs {fields : List GoField} {f : GoField} {n : String} :
    (f, n) ∈ fieldNamePairs fields
      ↔ f ∈ fields ∧ n ∈ f.names ∧ isExportedName n = true := by
  unfold fieldNamePairs
  simp only [List.mem_flatten, List.mem_map, List.mem_filter]
  constructor
  · rintro ⟨piece, ⟨f', hf', rfl⟩, hmem⟩
    rcases List.mem_map.mp hmem with ⟨n', hn', heq⟩
    rcases Prod.mk.injEq _ _ _ _ ▸ heq with ⟨rfl, rfl⟩
    rcases List.mem_filter.mp hn' with ⟨hn'', hexp⟩
    exact ⟨hf', hn'', hexp⟩
  · rintro ⟨hf, hn, hexp⟩
    refine ⟨(f.names.filter isExportedName).map (fun m => (f, m)), ⟨f, hf, rfl⟩, ?_⟩
    exact List.mem_map_of_mem _ (List.mem_filter.mpr ⟨hn, hexp⟩)

/-- The property keys are the json names of the field-name slots. -/
theorem fieldPropKeys_eq_pairs (ex : String → String) :
    ∀ (fields : List GoField),
      fieldPropKeys ex fields
        = (fieldNamePairs fields).map (fun p => fieldJsonName ex p.1 p.2)
  | [] => rfl
  | f :: rest => by
    have ih := fieldPropKeys_eq_pairs ex rest
    have h1 : fieldNamePairs (f :: rest)
        = (f.names.filter isExportedName).map (fun m => (f, m)) ++ fieldNamePairs rest := by
      simp [fieldNamePairs, List.map_cons, List.flatten_cons]
    have h2 : fieldPropKeys ex (f :: rest)
        = (f.names.filter isExportedName).map (fieldJsonName ex f)
          ++ fieldPropKeys ex rest := by
      simp [fieldPropKeys, List.map_cons, List.flatten_cons]
    rw [h1, h2, List.map_append, ih]
    congr 1
    simp [List.map_map, Function.comp]

/-- The keys of the flattened property contributions. -/
theorem propsContrib_keys (ex : String → String) (aT : Schema → String → Schema)
    (g : String → Schema) (e : String → Option Schema) (q : String → String) :
    ∀ (fields : List GoField),
      ((fields.map (fieldPropsContrib ex aT g e q)).flatten).map Prod.fst
        = fieldPropKeys ex fields
  | [] => rfl
  | f :: rest => by
    simp only [fieldPropKeys, List.map_cons, List.flatten_cons, List.map_append]
    rw [propsContrib_keys ex aT g e q rest]
    congr 1
    simp [fieldPropsContrib, List.map_map, Function.comp]

/-- The emitted schema of a field whose converted type is a reference node is
that node unchanged, whatever tag enhancer is supplied (part_006 line 65
skips applyEnhancedTags for reference schemas). -/
theorem fieldEmittedSchema_ref (aT : Schema → String → Schema) (g : String → Schema)
    (e : String → Option Schema) (q : String → String) (f : GoField) (target : String)
    (hconv : convertFieldType g e q f.tpe = Schema.pureRef target) (ht : target ≠ "") :
    fieldEmittedSchema aT g e q f = Schema.pureRef target := by
  unfold fieldEmittedSchema
  rw [hconv]
  cases htag : f.tag with
  | none => rfl
  | some raw =>
    show (if (Schema.pureRef target).ref = "" then
        aT (Schema.pureRef target) (trimChar backquote raw)
      else Schema.pureRef target) = Schema.pureRef target
    rw [if_neg (show ¬ (Schema.pureRef target).ref = "" from ht)]

/-- A struct without embedded fields converts to a plain object schema. -/
theorem convertStructToSchema_object (ex : String → String) (aT : Schema → String → Schema)
    (g : String → Schema) (e : String → Option Schema) (q : String → String)
    (fields : List GoField) (hne : ∀ f' ∈ fields, f'.names ≠ []) :
    convertStructToSchema ex aT g e q fields
      = Schema.objectOf (structPieces ex aT g e q fields).props
        (structPieces ex aT g e q fields).req := by
  have hallOf : (structPieces ex aT g e q fields).allOf = [] := by
    unfold structPieces
    rw [structFold_allOf]
    simp only [List.nil_append]
    rw [List.flatten_eq_nil_iff]
    intro l hl
    rcases List.mem_map.mp hl with ⟨f', hf', rfl⟩
    unfold fieldAllOfContrib
    rw [if_neg (fun hc => hne f' hf' (by simpa using hc))]
  simp only [convertStructToSchema]
  rw [hallOf]
  simp

/-- C5: a record field whose synthesized schema is a reference node (for
example a field of an enumerated declaration) is stored with struct-tag
constraint enhancement skipped, so the emitted reference node carries only
$ref: no type, enum, properties, format, pattern or deprecation sibling. -/
theorem refNode_no_siblings (ex : String → String) (aT : Schema → String → Schema)
    (g : String → Schema) (e : String → Option Schema) (q : String → String)
    (fields : List GoField) (f : GoField) (n target : String)
    (hf : f ∈ fields) (hn : n ∈ f.names) (hexp : isExportedName n = true)
    (hnd : (fieldPropKeys ex fields).Nodup)
    (hne : ∀ f' ∈ fields, f'.names ≠ [])
    (hconv : convertFieldType g e q f.tpe = Schema.pureRef target)
    (htarget : target ≠ "") :
    ((convertStructToSchema ex aT g e q fields).properties.lookup (fieldJsonName ex f n)
      = some (Schema.pureRef target))
    ∧ (Schema.pureRef target).tpe = SchemaType.untyped
    ∧ (Schema.pureRef target).enum = []
    ∧ (Schema.pureRef target).properties = []
    ∧ (Schema.pureRef target).format = ""
    ∧ (Schema.pureRef target).pat = ""
    ∧ (Schema.pureRef target).deprecated = false := by
  refine ⟨?_, rfl, rfl, rfl, rfl, rfl, rfl⟩
  rw [convertStructToSchema_object ex aT g e q fields hne]
  have hacc : (Schema.objectOf (structPieces ex aT g e q fields).props
      (structPieces ex aT g e q fields).req).properties
      = (structPieces ex aT g e q fields).props := rfl
  rw [hacc]
  have hprops : (structPieces ex aT g e q fields).props
      = (fields.map (fieldPropsContrib ex aT g e q)).flatten := by
    unfold structPieces
    rw [structFold_props ex aT g e q fields _ hnd (by intro k _ hc; simp at hc)]
    simp
  rw [hprops]
  rcases List.append_of_mem hf with ⟨pre, post, rfl⟩
  have hkeys : fieldPropKeys ex (pre ++ f :: post)
      = fieldPropKeys ex pre
        ++ ((f.names.filter isExportedName).map (fieldJsonName ex f)
          ++ fieldPropKeys ex post) := by
    simp [fieldPropKeys, List.map_append, List.flatten_append, List.map_cons,
      List.flatten_cons]
  rw [hkeys] at hnd
  have hdisj := (List.nodup_append.mp hnd).2.2
  have hkmem : fieldJsonName ex f n
      ∈ (f.names.filter isExportedName).map (fieldJsonName ex f) :=
    List.mem_map_of_mem _ (List.mem_filter.mpr ⟨hn, hexp⟩)
  have hnotpre : fieldJsonName ex f n
      ∉ ((pre.map (fieldPropsContrib ex aT g e q)).flatten).map Prod.fst := by
    rw [propsContrib_keys]
    intro hc
    exact hdisj hc (List.mem_append_left _ hkmem)
  have hsplit : (((pre ++ f :: post).map (fieldPropsContrib ex aT g e q)).flatten)
      = (pre.map (fieldPropsContrib ex aT g e q)).flatten
        ++ (fieldPropsContrib ex aT g e q f
          ++ (post.map (fieldPropsContrib ex aT g e q)).flatten) := by
    simp [List.map_append, List.flatten_append, List.map_cons, List.flatten_cons]
  rw [hsplit, lookup_append_of_not_mem _ _ _ hnotpre]
  have hemit := fieldEmittedSchema_ref aT g e q f target hconv htarget
  unfold fieldPropsContrib
  simp only [hemit]
  exact lookup_const_append (Schema.pureRef target) _ _ _ _ hkmem

/-- Witness for C5: a tagged enum-typed field with an enhancer that would
corrupt any schema it touches still comes out as a bare reference node. -/
theorem refNode_no_siblings_witness :
    ((convertStructToSchema (fun _ => "status") (fun _ _ => Schema.typed "corrupted")
        (fun _ => Schema.pureRef "#/components/schemas/annot8.MyEnum")
        (fun _ => none) (fun _ => "annot8.MyEnum")
        [GoField.mk ["Status"] (.ident "MyEnum") (some "tag")]).properties.lookup "status"
      = some (Schema.pureRef "#/components/schemas/annot8.MyEnum")) :=
  (refNode_no_siblings (fun _ => "status") (fun _ _ => Schema.typed "corrupted")
    (fun _ => Schema.pureRef "#/components/schemas/annot8.MyEnum")
    (fun _ => none) (fun _ => "annot8.MyEnum")
    [GoField.mk ["Status"] (.ident "MyEnum") (some "tag")]
    (GoField.mk ["Status"] (.ident "MyEnum") (some "tag"))
    "Status" "#/components/schemas/annot8.MyEnum"
    (List.mem_cons_self _ _) (List.mem_cons_self _ _) (by decide)
    (by decide) (by decide) rfl (by decide)).1

/-- C6: an exported, named field's serialized name appears in the object
schema's required list exactly when the field's declared type is not a
pointer and its struct tag does not contain the omitempty marker. -/
theorem required_field_law (ex : String → String) (aT : Schema → String → Schema)
    (g : String → Schema) (e : String → Option Schema) (q : String → String)
    (fields : List GoField) (f : GoField) (n : String)
    (hf : f ∈ fields) (hn : n ∈ f.names) (hexp : isExportedName n = true)
    (hnd : (fieldPropKeys ex fields).Nodup)
    (hne : ∀ f' ∈ fields, f'.names ≠ []) :
    fieldJsonName ex f n ∈ (convertStructToSchema ex aT g e q fields).required
      ↔ (isPointerType f.tpe = false ∧ hasOmitEmpty f.tag = false) := by
  rw [convertStructToSchema_object ex aT g e q fields hne]
  have hacc : (Schema.objectOf (structPieces ex aT g e q fields).props
      (structPieces ex aT g e q fields).req).required
      = (structPieces ex aT g e q fields).req := rfl
  rw [hacc]
  have hreq : (structPieces ex aT g e q fields).req
      = (fields.map (fieldReqContrib ex)).flatten := by
    unfold structPieces
    rw [structFold_req]
    simp
  rw [hreq]
  constructor
  · intro hk
    rcases List.mem_flatten.mp hk with ⟨piece, hpiece, hkp⟩
    rcases List.mem_map.mp hpiece with ⟨f', hf', rfl⟩
    unfold fieldReqContrib at hkp
    by_cases hcond : (!isPointerType f'.tpe && !hasOmitEmpty f'.tag) = true
    · rw [if_pos hcond] at hkp
      rcases List.mem_map.mp hkp with ⟨n', hn', heq⟩
      rcases List.mem_filter.mp hn' with ⟨hn'', hexp'⟩
      have hpairnd : ((fieldNamePairs fields).map
          (fun p => fieldJsonName ex p.1 p.2)).Nodup := by
        rw [← fieldPropKeys_eq_pairs]
        exact hnd
      have hpair : ((f', n') : GoField × String) = (f, n) :=
        nodup_map_inj hpairnd
          (mem_fieldNamePairs.mpr ⟨hf', hn'', hexp'⟩)
          (mem_fieldNamePairs.mpr ⟨hf, hn, hexp⟩)
          heq
      have hff : f' = f := (Prod.mk.injEq _ _ _ _ ▸ hpair).1
      rw [hff] at hcond
      simp only [Bool.and_eq_true, Bool.not_eq_true'] at hcond
      exact hcond
    · rw [if_neg hcond] at hkp
      exact absurd hkp (List.not_mem_nil _)
  · rintro ⟨hp, ho⟩
    apply List.mem_flatten.mpr
    refine ⟨fieldReqContrib ex f, List.mem_map_of_mem _ hf, ?_⟩
    unfold fieldReqContrib
    rw [if_pos (by simp [hp, ho])]
    exact List.mem_map_of_mem _ (List.mem_filter.mpr ⟨hn, hexp⟩)

/-- Witness for C6: a plain exported string field with no tag is required. -/
theorem required_field_law_witness :
    (("ID" : String)
      ∈ (convertStructToSchema (fun _ => "") (fun s _ => s) (fun _ => Schema.empty)
        (fun _ => none) (fun s => s)
        [GoField.mk ["ID"] (.ident "string") none]).required) :=
  (required_field_law (fun _ => "") (fun s _ => s) (fun _ => Schema.empty)
    (fun _ => none) (fun s => s)
    [GoField.mk ["ID"] (.ident "string") none]
    (GoField.mk ["ID"] (.ident "string") none) "ID"
    (List.mem_cons_self _ _) (List.mem_cons_self _ _) (by decide)
    (by decide) (by decide)).mpr ⟨rfl, rfl⟩

/-- Appending to a common prefix is injective on strings. -/
theorem str_append_left_cancel {s a b : String} (h : s ++ a = s ++ b) : a = b := by
  have hd := congrArg String.data h
  rw [String.data_append, String.data_append] at hd
  exact strDataInj (List.append_cancel_left hd)

/-- The operation identifier of a built operation is generateOperationID of
its method and route, whatever the annotations resolve to. -/
theorem buildOperationMeta_operationID (parseAnn : String → String → Option AnnotData)
    (genSchema : String → Schema)
    (resolveACL : String → String → Option HandlerInfo → List String → List String)
    (hi : Option HandlerInfo) (route method : String) (mws : List String) :
    (buildOperationMeta parseAnn genSchema resolveACL hi route method mws).operationID
      = generateOperationID method route := by
  unfold buildOperationMeta
  rcases hi with _ | h
  · rfl
  · dsimp only
    by_cases hf : h.file ≠ ""
    · rw [if_pos hf]
      rcases hann : parseAnn h.file h.functionName with _ | a
      · rfl
      · rfl
    · rw [if_neg hf]

/-- The summary of a built operation is the summary parsed from its own
handler's documentation. -/
theorem buildOperationMeta_summary (parseAnn : String → String → Option AnnotData)
    (genSchema : String → Schema)
    (resolveACL : String → String → Option HandlerInfo → List String → List String)
    (h : HandlerInfo) (route method : String) (mws : List String) (a : AnnotData)
    (hfile : h.file ≠ "") (hparse : parseAnn h.file h.functionName = some a) :
    (buildOperationMeta parseAnn genSchema resolveACL (some h) route method mws).summary
      = a.summary := by
  unfold buildOperationMeta
  dsimp only
  rw [if_pos hfile, hparse]

/-- C7 (amended): two routes built for identically named methods of distinct
owning types receive different operation identifiers whenever the
concatenations of their capitalized non-parameter route segments differ, and
each operation's summary is taken from its own handler's parsed
documentation (no cross-contamination).  For routes that differ only in
parameter segments the identifiers coincide — see the counterexample. -/
theorem handler_disambiguation (parseAnn : String → String → Option AnnotData)
    (genSchema : String → Schema)
    (resolveACL : String → String → Option HandlerInfo → List String → List String)
    (h1 h2 : HandlerInfo) (r1 r2 method : String) (mws1 mws2 : List String)
    (a1 a2 : AnnotData)
    (hid : String.join (cleanRouteParts r1) ≠ String.join (cleanRouteParts r2))
    (hf1 : h1.file ≠ "") (hp1 : parseAnn h1.file h1.functionName = some a1)
    (hf2 : h2.file ≠ "") (hp2 : parseAnn h2.file h2.functionName = some a2) :
    ((buildOperationMeta parseAnn genSchema resolveACL (some h1) r1 method mws1).operationID
      ≠ (buildOperationMeta parseAnn genSchema resolveACL (some h2) r2 method mws2).operationID)
    ∧ (buildOperationMeta parseAnn genSchema resolveACL (some h1) r1 method mws1).summary
      = a1.summary
    ∧ (buildOperationMeta parseAnn genSchema resolveACL (some h2) r2 method mws2).summary
      = a2.summary := by
  refine ⟨?_,
    buildOperationMeta_summary parseAnn genSchema resolveACL h1 r1 method mws1 a1 hf1 hp1,
    buildOperationMeta_summary parseAnn genSchema resolveACL h2 r2 method mws2 a2 hf2 hp2⟩
  rw [buildOperationMeta_operationID, buildOperationMeta_operationID]
  unfold generateOperationID
  intro hc
  exact hid (str_append_left_cancel hc)

/-- Witness for the amended C7: the menu/coupon List-method scenario. -/
theorem handler_disambiguation_witness :
    ((buildOperationMeta
        (fun file _ => if file = "menu/handler.go" then
          some (AnnotData.mk "Get menu" "" [] [])
        else some (AnnotData.mk "List coupons" "" [] []))
        (fun _ => Schema.empty) (fun _ _ _ _ => [])
        (some (HandlerInfo.mk "menu/handler.go" "List"))
        "/api/v1/menu/" "GET" []).operationID
      ≠ (buildOperationMeta
        (fun file _ => if file = "menu/handler.go" then
          some (AnnotData.mk "Get menu" "" [] [])
        else some (AnnotData.mk "List coupons" "" [] []))
        (fun _ => Schema.empty) (fun _ _ _ _ => [])
        (some (HandlerInfo.mk "coupon/handler.go" "List"))
        "/api/v1/coupon/" "GET" []).operationID)
    ∧ (buildOperationMeta
        (fun file _ => if file = "menu/handler.go" then
          some (AnnotData.mk "Get menu" "" [] [])
        else some (AnnotData.mk "List coupons" "" [] []))
        (fun _ => Schema.empty) (fun _ _ _ _ => [])
        (some (HandlerInfo.mk "menu/handler.go" "List"))
        "/api/v1/menu/" "GET" []).summary = (AnnotData.mk "Get menu" "" [] []).summary
    ∧ (buildOperationMeta
        (fun file _ => if file = "menu/handler.go" then
          some (AnnotData.mk "Get menu" "" [] [])
        else some (AnnotData.mk "List coupons" "" [] []))
        (fun _ => Schema.empty) (fun _ _ _ _ => [])
        (some (HandlerInfo.mk "coupon/handler.go" "List"))
        "/api/v1/coupon/" "GET" []).summary = (AnnotData.mk "List coupons" "" [] []).summary :=
  handler_disambiguation
    (fun file _ => if file = "menu/handler.go" then
      some (AnnotData.mk "Get menu" "" [] [])
    else some (AnnotData.mk "List coupons" "" [] []))
    (fun _ => Schema.empty) (fun _ _ _ _ => [])
    (HandlerInfo.mk "menu/handler.go" "List") (HandlerInfo.mk "coupon/handler.go" "List")
    "/api/v1/menu/" "/api/v1/coupon/" "GET" [] []
    (AnnotData.mk "Get menu" "" [] []) (AnnotData.mk "List coupons" "" [] [])
    (by decide) (by decide) rfl (by decide) rfl

/-- C7 counterexample: two different path patterns that differ only in their
parameter segment receive the same operation identifier, refuting the claim
that every such pair yields distinct identifiers. -/
theorem operationID_collision :
    (buildOperationMeta (fun _ _ => none) (fun _ => Schema.empty) (fun _ _ _ _ => [])
        none "/menu/{id}" "GET" []).operationID
      = (buildOperationMeta (fun _ _ => none) (fun _ => Schema.empty) (fun _ _ _ _ => [])
        none "/menu/{key}" "GET" []).operationID
    ∧ ("/menu/{id}" : String) ≠ "/menu/{key}" :=
  ⟨rfl, by decide⟩

/-- Membership characterization of the de-duplication loop. -/
theorem uniqueStringsAux_mem : ∀ (seen l : List String) (v : String),
    v ∈ uniqueStringsAux seen l ↔ (v ∈ l ∧ v ∉ seen ∧ v ≠ "")
  | _, [], v => by simp [uniqueStringsAux]
  | seen, x :: rest, v => by
    by_cases hx0 : x = ""
    · subst hx0
      rw [show uniqueStringsAux seen ("" :: rest) = uniqueStringsAux seen rest from rfl]
      rw [uniqueStringsAux_mem seen rest v]
      constructor
      · rintro ⟨h1, h2, h3⟩
        exact ⟨List.mem_cons_of_mem _ h1, h2, h3⟩
      · rintro ⟨h1, h2, h3⟩
        rcases List.mem_cons.mp h1 with rfl | h1'
        · exact absurd rfl h3
        · exact ⟨h1', h2, h3⟩
    · by_cases hxs : x ∈ seen
      · rw [show uniqueStringsAux seen (x :: rest)
            = uniqueStringsAux seen rest from by simp [uniqueStringsAux, hx0, hxs]]
        rw [uniqueStringsAux_mem seen rest v]
        constructor
        · rintro ⟨h1, h2, h3⟩
          exact ⟨List.mem_cons_of_mem _ h1, h2, h3⟩
        · rintro ⟨h1, h2, h3⟩
          rcases List.mem_cons.mp h1 with rfl | h1'
          · exact absurd hxs h2
          · exact ⟨h1', h2, h3⟩
      · rw [show uniqueStringsAux seen (x :: rest)
            = x :: uniqueStringsAux (x :: seen) rest from by simp [uniqueStringsAux, hx0, hxs]]
        constructor
        · intro hv
          rcases List.mem_cons.mp hv with rfl | hv'
          · exact ⟨List.mem_cons_self _ _, hxs, hx0⟩
          · rcases (uniqueStringsAux_mem (x :: seen) rest v).mp hv' with ⟨h1, h2, h3⟩
            refine ⟨List.mem_cons_of_mem _ h1, fun hc => h2 (List.mem_cons_of_mem _ hc), h3⟩
        · rintro ⟨h1, h2, h3⟩
          rcases List.mem_cons.mp h1 with rfl | h1'
          · exact List.mem_cons_self _ _
          · by_cases hvx : v = x
            · subst hvx
              exact List.mem_cons_self _ _
            · refine List.mem_cons_of_mem _
                ((uniqueStringsAux_mem (x :: seen) rest v).mpr ⟨h1', ?_, h3⟩)
              intro hc
              rcases List.mem_cons.mp hc with h | h
              · exact hvx h
              · exact h2 h

/-- The de-duplication loop yields a duplicate-free list. -/
theorem uniqueStringsAux_nodup : ∀ (seen l : List String), (uniqueStringsAux seen l).Nodup
  | _, [] => List.nodup_nil
  | seen, x :: rest => by
    by_cases hx0 : x = ""
    · subst hx0
      exact uniqueStringsAux_nodup seen rest
    · by_cases hxs : x ∈ seen
      · rw [show uniqueStringsAux seen (x :: rest)
            = uniqueStringsAux seen rest from by simp [uniqueStringsAux, hx0, hxs]]
        exact uniqueStringsAux_nodup seen rest
      · rw [show uniqueStringsAux seen (x :: rest)
            = x :: uniqueStringsAux (x :: seen) rest from by simp [uniqueStringsAux, hx0, hxs]]
        refine List.nodup_cons.mpr ⟨?_, uniqueStringsAux_nodup (x :: seen) rest⟩
        intro hc
        exact ((uniqueStringsAux_mem (x :: seen) rest x).mp hc).2.1 (List.mem_cons_self _ _)

/-- The de-duplication loop preserves the order of the kept elements. -/
theorem uniqueStringsAux_sublist : ∀ (seen l : List String),
    (uniqueStringsAux seen l).Sublist l
  | _, [] => List.Sublist.refl _
  | seen, x :: rest => by
    by_cases hx0 : x = ""
    · subst hx0
      exact (uniqueStringsAux_sublist seen rest).cons _
    · by_cases hxs : x ∈ seen
      · rw [show uniqueStringsAux seen (x :: rest)
            = uniqueStringsAux seen rest from by simp [uniqueStringsAux, hx0, hxs]]
        exact (uniqueStringsAux_sublist seen rest).cons _
      · rw [show uniqueStringsAux seen (x :: rest)
            = x :: uniqueStringsAux (x :: seen) rest from by simp [uniqueStringsAux, hx0, hxs]]
        exact (uniqueStringsAux_sublist (x :: seen) rest).cons₂ _

/-- C8 (amended): resolveACLPermissions returns the first non-empty tier —
the source-walk permissions (de-duplicated by uniqueStrings, which keeps
first occurrences in order), else the singleton heuristic inference, else
one descriptive label per matching middleware name; the third tier performs
no de-duplication (see the counterexample). -/
theorem resolveACL_tiers (sourceWalk : Option (List String)) (raw : List String)
    (route method : String) (mws : List String) :
    (sourceWalk = some raw → uniqueStrings raw ≠ [] →
      resolveACLPermissions sourceWalk route method mws = uniqueStrings raw)
    ∧ (extractPermissionsFromSource sourceWalk = [] →
      inferPermissionFromRoute route method mws ≠ "" →
      resolveACLPermissions sourceWalk route method mws
        = [inferPermissionFromRoute route method mws])
    ∧ (extractPermissionsFromSource sourceWalk = [] →
      inferPermissionFromRoute route method mws = "" →
      resolveACLPermissions sourceWalk route method mws = extractACLPermissions mws)
    ∧ (uniqueStrings raw).Nodup
    ∧ (uniqueStrings raw).Sublist raw
    ∧ (∀ v, v ∈ uniqueStrings raw ↔ (v ∈ raw ∧ v ≠ "")) := by
  refine ⟨?_, ?_, ?_, uniqueStringsAux_nodup [] raw, uniqueStringsAux_sublist [] raw, ?_⟩
  · intro hsw hne
    subst hsw
    unfold resolveACLPermissions
    rw [if_pos (show extractPermissionsFromSource (some raw) ≠ [] from hne)]
    rfl
  · intro h1 h2
    unfold resolveACLPermissions
    rw [h1]
    rw [if_neg (by simp)]
    rw [if_pos h2]
  · intro h1 h2
    unfold resolveACLPermissions
    rw [h1]
    rw [if_neg (by simp)]
    rw [if_neg (by simp [h2])]
  · intro v
    unfold uniqueStrings
    rw [uniqueStringsAux_mem [] raw v]
    simp

/-- Witness for the amended C8: a source walk with a duplicate slug resolves
to the de-duplicated tier-one list. -/
theorem resolveACL_tiers_witness :
    resolveACLPermissions (some ["orders.read", "orders.read", "menu.write"])
        "/orders" "GET" [] = uniqueStrings ["orders.read", "orders.read", "menu.write"]
    ∧ (uniqueStrings ["orders.read", "orders.read", "menu.write"]).Nodup :=
  ⟨(resolveACL_tiers (some ["orders.read", "orders.read", "menu.write"])
      ["orders.read", "orders.read", "menu.write"] "/orders" "GET" []).1 rfl (by decide),
    (resolveACL_tiers (some ["orders.read", "orders.read", "menu.write"])
      ["orders.read", "orders.read", "menu.write"] "/orders" "GET" []).2.2.2.1⟩

/-- C8 counterexample: in the middleware-name tier, two middlewares whose
names both match the authentication convention produce a duplicated label —
the returned list is not de-duplicated in that tier. -/
theorem resolveACL_not_deduped :
    resolveACLPermissions none "/items" "GET" ["a.Authenticated", "b.Authenticated"]
      = ["requires valid authentication", "requires valid authentication"]
    ∧ ¬ (resolveACLPermissions none "/items" "GET"
        ["a.Authenticated", "b.Authenticated"]).Nodup :=
  ⟨by decide, by decide⟩

/-- C9: a source file that fails to parse is skipped: indexFile returns a
nil error and leaves every table of the index untouched, and the walk over
the file list continues through the remaining files exactly as if the
unparsable file were absent — one bad file never aborts index building. -/
theorem indexFile_parse_failure (parse : String → Option GoFileAst)
    (idx : TypeIndexState) (p : String) (hp : parse p = none)
    (pre post : List String) :
    indexFile parse idx p = (idx, none)
    ∧ walkIndexFiles parse (pre ++ p :: post) idx
      = walkIndexFiles parse (pre ++ post) idx := by
  have hskip : ∀ idx' : TypeIndexState, indexFile parse idx' p = (idx', none) := by
    intro idx'
    unfold indexFile
    rw [hp]
  refine ⟨hskip idx, ?_⟩
  induction pre generalizing idx with
  | nil =>
    simp only [List.nil_append]
    rw [show walkIndexFiles parse (p :: post) idx
      = (match indexFile parse idx p with
        | (idx', none) => walkIndexFiles parse post idx'
        | (idx', some _) => idx') from rfl]
    rw [hskip idx]
  | cons qf rest ih =>
    simp only [List.cons_append]
    rw [show walkIndexFiles parse (qf :: (rest ++ p :: post)) idx
      = (match indexFile parse idx qf with
        | (idx', none) => walkIndexFiles parse (rest ++ p :: post) idx'
        | (idx', some _) => idx') from rfl]
    rw [show walkIndexFiles parse (qf :: (rest ++ post)) idx
      = (match indexFile parse idx qf with
        | (idx', none) => walkIndexFiles parse (rest ++ post) idx'
        | (idx', some _) => idx') from rfl]
    rcases hq : indexFile parse idx qf with ⟨idx', err⟩
    rcases err with _ | e
    · exact ih idx'
    · rfl

/-- Witness for C9: one unparsable file among two good ones. -/
theorem indexFile_parse_failure_witness :
    indexFile (fun s => if s = "bad.go" then none else some (GoFileAst.mk "pkg" [] ["T"]))
        (TypeIndexState.mk [] [] [] []) "bad.go"
      = (TypeIndexState.mk [] [] [] [], none)
    ∧ walkIndexFiles (fun s => if s = "bad.go" then none else some (GoFileAst.mk "pkg" [] ["T"]))
        (["a.go"] ++ "bad.go" :: ["b.go"]) (TypeIndexState.mk [] [] [] [])
      = walkIndexFiles (fun s => if s = "bad.go" then none else some (GoFileAst.mk "pkg" [] ["T"]))
        (["a.go"] ++ ["b.go"]) (TypeIndexState.mk [] [] [] []) :=
  indexFile_parse_failure
    (fun s => if s = "bad.go" then none else some (GoFileAst.mk "pkg" [] ["T"]))
    (TypeIndexState.mk [] [] [] []) "bad.go" rfl ["a.go"] ["b.go"]

/-- The first parameter matching on (name, in) is merged in place, the rest
of the list is untouched. -/
theorem upsertParameter_eq : ∀ (pre : List Parameter) (qp p : Parameter) (post : List Parameter),
    (∀ x ∈ pre, ¬(x.name = p.name ∧ x.inLoc = p.inLoc)) →
    qp.name = p.name → qp.inLoc = p.inLoc →
    upsertParameter (pre ++ qp :: post) p = pre ++ mergeParameter qp p :: post
  | [], qp, p, post, _, hqn, hqi => by
    simp only [List.nil_append]
    unfold upsertParameter
    rw [if_pos (by simp [hqn, hqi])]
  | x :: rest, qp, p, post, hpre, hqn, hqi => by
    simp only [List.cons_append]
    unfold upsertParameter
    have hx := hpre x (List.mem_cons_self _ _)
    rw [if_neg (by simpa using hx)]
    rw [upsertParameter_eq rest qp p post
      (fun y hy => hpre y (List.mem_cons_of_mem _ hy)) hqn hqi]

/-- C10: merging an annotation-declared parameter into an existing (name, in)
match never clears Required — a required path-template parameter stays
required even under a required=false re-declaration — and the description
and schema are replaced only when the annotation supplies a non-empty
description or a non-nil schema; path-template parameters start required. -/
theorem upsertParameter_preserves_required (pre : List Parameter) (qp p : Parameter)
    (post : List Parameter)
    (hpre : ∀ x ∈ pre, ¬(x.name = p.name ∧ x.inLoc = p.inLoc))
    (hqn : qp.name = p.name) (hqi : qp.inLoc = p.inLoc) :
    upsertParameter (pre ++ qp :: post) p = pre ++ mergeParameter qp p :: post
    ∧ (qp.required = true → (mergeParameter qp p).required = true)
    ∧ (p.required = false → (mergeParameter qp p).required = qp.required)
    ∧ (p.description = "" → (mergeParameter qp p).description = qp.description)
    ∧ (p.description ≠ "" → (mergeParameter qp p).description = p.description)
    ∧ (p.schema = none → (mergeParameter qp p).schema = qp.schema)
    ∧ (∀ s, p.schema = some s → (mergeParameter qp p).schema = some s)
    ∧ (∀ route x, x ∈ extractPathParameters route → x.required = true) := by
  refine ⟨upsertParameter_eq pre qp p post hpre hqn hqi, ?_, ?_, ?_, ?_, ?_, ?_, ?_⟩
  · intro hq
    unfold mergeParameter
    by_cases hr : p.required
    · simp [hr]
    · simp [hr, hq]
  · intro hr
    unfold mergeParameter
    simp [hr]
  · intro hd
    unfold mergeParameter
    simp [hd]
  · intro hd
    unfold mergeParameter
    simp [hd]
  · intro hs
    unfold mergeParameter
    simp [hs]
  · intro s hs
    unfold mergeParameter
    simp [hs]
  · intro route x hx
    rcases List.mem_filterMap.mp hx with ⟨part, _, hsome⟩
    by_cases hcond : (strStartsWith part "\x7b" && strEndsWith part "\x7d") = true
    · rw [if_pos hcond] at hsome
      rcases Option.some.inj hsome with rfl
      rfl
    · rw [if_neg hcond] at hsome
      exact absurd hsome (by simp)

/-- Witness for C10: a required path parameter re-declared by an annotation
with required=false keeps Required. -/
theorem upsertParameter_preserves_required_witness :
    upsertParameter [Parameter.mk "id" "path" "" true (some (Schema.typed "string"))]
        (Parameter.mk "id" "path" "Invoice ID" false none)
      = [mergeParameter (Parameter.mk "id" "path" "" true (some (Schema.typed "string")))
          (Parameter.mk "id" "path" "Invoice ID" false none)]
    ∧ (mergeParameter (Parameter.mk "id" "path" "" true (some (Schema.typed "string")))
        (Parameter.mk "id" "path" "Invoice ID" false none)).required = true :=
  ⟨(upsertParameter_preserves_required [] (Parameter.mk "id" "path" "" true
      (some (Schema.typed "string"))) (Parameter.mk "id" "path" "Invoice ID" false none) []
      (by simp) rfl rfl).1,
    (upsertParameter_preserves_required [] (Parameter.mk "id" "path" "" true
      (some (Schema.typed "string"))) (Parameter.mk "id" "path" "Invoice ID" false none) []
      (by simp) rfl rfl).2.1 rfl⟩
